import Mathlib

/-!
Verification of the `stack-ai-vector-db` repository against its specification.

The development shallowly embeds the parts of the code base that the checked
properties talk about:

* `app/indexer/ball_tree_indexer.py` — the `BallNode`/`BallTree` structure and
  its recursive nearest-neighbour search (`BallTree.build`, `BallTree._search_node`,
  `BallTree.search`, and the similarity conversion of `BallTreeIndexer.search`).
  Vectors of 32-bit floats are idealised as vectors of reals with the Euclidean
  metric; the parallel `points`/`indices` arrays of the source are carried as a
  single list of (vector, original index) pairs.

* `app/database/*.py` and `app/services/*.py` — the in-memory store (Python
  dicts become association lists, UUID keys become naturals), the CRUD
  operations, the snapshot save/load functions and the service layer that
  marks libraries unindexed.  Python exceptions are modelled by returning
  `Except` together with the state reached at raise time (Python mutations
  performed before a raise are kept, exactly as in the source).
-/

set_option maxHeartbeats 1600000

namespace StackVDB

/-! ## Euclidean vectors

`Vec d` models one row of the `np.float32` matrix handled by the ball tree.
`dist` is the metric-space distance of `EuclideanSpace`, i.e. exactly
`np.linalg.norm(x - y)`. -/

abbrev Vec (d : ℕ) := EuclideanSpace ℝ (Fin d)

/-- Coordinate access `p[j]` with the out-of-range guard made total. -/
def coord {d : ℕ} (p : Vec d) (j : ℕ) : ℝ :=
  if h : j < d then p ⟨j, h⟩ else 0

/-- `np.mean(points, axis=0)`: the arithmetic mean of a list of rows. -/
noncomputable def centroid {d : ℕ} (ps : List (Vec d)) : Vec d :=
  ((ps.length : ℝ))⁻¹ • ps.sum

/-- `np.max(np.linalg.norm(points - center, axis=1))`, the radius assigned to a
ball node; the empty list gets `0` (the source only takes this max over a
non-empty row set, where the two readings agree because distances are
non-negative). -/
noncomputable def radiusOf {d : ℕ} (c : Vec d) (ps : List (Vec d)) : ℝ :=
  (ps.map (fun p => dist c p)).foldr max 0

/-- `np.var(points, axis=0)[j]`: mean squared deviation from the mean in
coordinate `j`. -/
noncomputable def varAtN {d : ℕ} (ps : List (Vec d)) (j : ℕ) : ℝ :=
  ((ps.map (fun p => (coord p j - coord (centroid ps) j) ^ 2)).sum) / ps.length

/-- `np.argmax(variances)`: the first coordinate of maximal variance
(`List.argmax` prefers the earliest maximiser, like `np.argmax`). -/
noncomputable def splitDimOf {d : ℕ} (ps : List (Vec d)) : ℕ :=
  (((List.range d).argmax (fun j => varAtN ps j))).getD 0

/-- `median_idx = len(sorted_indices) // 2` followed by the two clamps that
guarantee a non-empty node on each side. -/
def medianIdx (n : ℕ) : ℕ :=
  if n / 2 = 0 then 1 else if n / 2 = n then n - 1 else n / 2

theorem medianIdx_bounds {n : ℕ} (h : 2 ≤ n) :
    1 ≤ medianIdx n ∧ medianIdx n < n := by
  unfold medianIdx
  split <;> [omega; (split <;> omega)]

/-- A node of the ball tree (`BallNode` in the source).  The source encodes a
leaf as a node whose `left` and `right` are both `None`; the constructor never
produces a node with exactly one child, so an inductive with a separate leaf
constructor is a faithful embedding. -/
inductive BallNode (d : ℕ) where
  | leaf (indices : List ℕ) (center : Vec d) (radius : ℝ)
  | node (indices : List ℕ) (center : Vec d) (radius : ℝ)
      (left : BallNode d) (right : BallNode d)

/-- Stored point indices (`self.indices`). -/
def BallNode.indices {d : ℕ} : BallNode d → List ℕ
  | .leaf is _ _ => is
  | .node is _ _ _ _ => is

/-- Stored ball center (`self.center`). -/
noncomputable def BallNode.center {d : ℕ} : BallNode d → Vec d
  | .leaf _ c _ => c
  | .node _ c _ _ _ => c

/-- Stored ball radius (`self.radius`). -/
noncomputable def BallNode.radius {d : ℕ} : BallNode d → ℝ
  | .leaf _ _ r => r
  | .node _ _ r _ _ => r

theorem varAtN_of_short {d : ℕ} (ps : List (Vec d)) (h : ps.length ≤ 1) (j : ℕ) :
    varAtN ps j = 0 := by
  match ps, h with
  | [], _ => simp [varAtN]
  | [p], _ =>
    have hc : centroid [p] = p := by
      simp [centroid, List.sum_cons]
    simp [varAtN, hc]

/-- `BallNode.__init__`: recursive construction of the tree over a list of
(point, original index) pairs, following the source branch by branch. -/
noncomputable def buildNode {d : ℕ} (leafSize : ℕ) (prs : List (Vec d × ℕ)) :
    BallNode d :=
  if prs.length ≤ leafSize then
    -- leaf node
    if 0 < prs.length then
      .leaf (prs.map Prod.snd) (centroid (prs.map Prod.fst))
        (radiusOf (centroid (prs.map Prod.fst)) (prs.map Prod.fst))
    else
      -- empty node: the zero center used by the source
      .leaf (prs.map Prod.snd) 0 0
  else
    if hv : ∀ j < d, varAtN (prs.map Prod.fst) j = 0 then
      -- all points identical: degenerate leaf centred on the first point
      .leaf (prs.map Prod.snd) prs.headI.1 0
    else
      let j := splitDimOf (prs.map Prod.fst)
      let sorted := prs.insertionSort (fun a b => coord a.1 j ≤ coord b.1 j)
      let m := medianIdx prs.length
      .node (prs.map Prod.snd) (centroid (prs.map Prod.fst))
        (radiusOf (centroid (prs.map Prod.fst)) (prs.map Prod.fst))
        (buildNode leafSize (sorted.take m))
        (buildNode leafSize (sorted.drop m))
termination_by prs.length
decreasing_by
  · have hlen : 2 ≤ prs.length := by
      by_contra hc
      push_neg at hc
      exact hv fun j _ => varAtN_of_short _ (by simpa using Nat.lt_succ_iff.mp hc) j
    have hs : (prs.insertionSort
        (fun a b => coord a.1 (splitDimOf (prs.map Prod.fst)) ≤
          coord b.1 (splitDimOf (prs.map Prod.fst)))).length = prs.length :=
      (List.perm_insertionSort _ _).length_eq
    have hm : 1 ≤ medianIdx prs.length ∧ medianIdx prs.length < prs.length :=
      medianIdx_bounds hlen
    simp only [List.length_take, hs]
    omega
  · have hlen : 2 ≤ prs.length := by
      by_contra hc
      push_neg at hc
      exact hv fun j _ => varAtN_of_short _ (by simpa using Nat.lt_succ_iff.mp hc) j
    have hs : (prs.insertionSort
        (fun a b => coord a.1 (splitDimOf (prs.map Prod.fst)) ≤
          coord b.1 (splitDimOf (prs.map Prod.fst)))).length = prs.length :=
      (List.perm_insertionSort _ _).length_eq
    have hm : 1 ≤ medianIdx prs.length ∧ medianIdx prs.length < prs.length :=
      medianIdx_bounds hlen
    simp only [List.length_drop, hs]
    omega

/-! ## Ball-tree search

`BallTree._search_node` maintains `results`, a list of `(distance, index)`
pairs kept sorted ascending (Python tuples compare lexicographically) and
capped at `k`.  `results[-1][0]` — the distance of the current worst kept
candidate — is `worst` below.  Appending (or overwriting the last slot) and
re-sorting an already sorted list is an ordered insertion, which is how
`rinsert` renders `results.append(x); results.sort()` and
`results[-1] = x; results.sort()`. -/

/-- `results[-1][0]` (`0` for an empty list; the source only reads it when
`len(results) >= k >= 1`). -/
def worst (R : List (ℝ × ℕ)) : ℝ :=
  ((R.getLast?).map Prod.fst).getD 0

/-- Ordered insertion under the lexicographic tuple order used by Python's
`list.sort` on `(distance, index)` pairs. -/
noncomputable def rinsert (x : ℝ × ℕ) : List (ℝ × ℕ) → List (ℝ × ℕ)
  | [] => [x]
  | y :: ys =>
    if x.1 < y.1 ∨ (x.1 = y.1 ∧ x.2 ≤ y.2) then x :: y :: ys
    else y :: rinsert x ys

/-- The per-point loop of the leaf branch of `BallTree._search_node`: each
stored index is checked against `len(self.points)`, its distance to the query
is computed, and the result list is grown (while below `k`) or its worst entry
replaced (when closer). -/
noncomputable def leafUpdate {d : ℕ} (P : List (Vec d)) (q : Vec d) (k : ℕ) :
    List ℕ → List (ℝ × ℕ) → List (ℝ × ℕ)
  | [], R => R
  | i :: is, R =>
    if h : i < P.length then
      let dv := dist q (P.get ⟨i, h⟩)
      if R.length < k then
        leafUpdate P q k is (rinsert (dv, i) R)
      else if dv < worst R then
        leafUpdate P q k is (rinsert (dv, i) R.dropLast)
      else
        leafUpdate P q k is R
    else
      leafUpdate P q k is R

/-- `BallTree._search_node`: recursive search with the ball-pruning rule.  The
`farthest_dist = float('inf')` placeholder of the source is only ever read
when `len(results) >= k`, which the disjunctions below express directly. -/
noncomputable def searchNode {d : ℕ} (P : List (Vec d)) (q : Vec d) (k : ℕ) :
    BallNode d → List (ℝ × ℕ) → List (ℝ × ℕ)
  | .leaf is _ _, R => leafUpdate P q k is R
  | .node _ c r l rt, R =>
    if R.length < k ∨ dist q c - r ≤ worst R then
      if dist q l.center < dist q rt.center then
        let R1 := searchNode P q k l R
        if R1.length < k ∨ dist q rt.center - rt.radius ≤ worst R1 then
          searchNode P q k rt R1
        else R1
      else
        let R1 := searchNode P q k rt R
        if R1.length < k ∨ dist q l.center - l.radius ≤ worst R1 then
          searchNode P q k l R1
        else R1
    else R

/-- `indices = list(range(len(points)))`: the rows paired with their original
positions, as handed to the root `BallNode`. -/
noncomputable def idxPairs {d : ℕ} (P : List (Vec d)) : List (Vec d × ℕ) :=
  (List.range P.length).map (fun i => (P.getD i 0, i))

/-- `BallTree.search`: empty tree guard, clamping `k = min(k, len(points))`,
the `k <= 0` early return, then the recursive search started on the root with
an empty result list.  Results are the `(distance, original index)` pairs; the
lookup `self.chunk_infos[idx]` is a plain projection kept outside the model. -/
noncomputable def treeSearch {d : ℕ} (leafSize : ℕ) (P : List (Vec d))
    (q : Vec d) (k : ℕ) : List (ℝ × ℕ) :=
  if P.length = 0 then []
  else if min k P.length = 0 then []
  else searchNode P q (min k P.length) (buildNode leafSize (idxPairs P)) []

/-- `1.0 / (1.0 + dist)`: the distance-to-similarity conversion of
`BallTreeIndexer.search`. -/
noncomputable def similarityOf (dv : ℝ) : ℝ := 1 / (1 + dv)

/-- `BallTreeIndexer.search`: clamp `k = min(top_k, len(vectors))`, run the
tree search, convert distances to similarities and sort descending by
similarity score. -/
noncomputable def indexerSearch {d : ℕ} (leafSize : ℕ) (P : List (Vec d))
    (q : Vec d) (topK : ℕ) : List (ℝ × ℕ) :=
  ((treeSearch leafSize P q (min topK P.length)).map
      (fun p => (similarityOf p.1, p.2))).insertionSort
    (fun a b => b.1 ≤ a.1)

/-! ## Invariants of the built tree and of the result list -/

/-- Well-formedness of a built ball node relative to the global row list `P`:
all stored indices are in range and their points lie inside the stored ball,
indices are distinct, and an inner node's indices are exactly those of its two
children. -/
inductive TreeInv {d : ℕ} (P : List (Vec d)) : BallNode d → Prop
  | leaf {is : List ℕ} {c : Vec d} {r : ℝ}
      (hball : ∀ i ∈ is, ∃ h : i < P.length, dist c (P.get ⟨i, h⟩) ≤ r)
      (hnd : is.Nodup) : TreeInv P (.leaf is c r)
  | node {is : List ℕ} {c : Vec d} {r : ℝ} {l rt : BallNode d}
      (hball : ∀ i ∈ is, ∃ h : i < P.length, dist c (P.get ⟨i, h⟩) ≤ r)
      (hnd : is.Nodup)
      (hl : TreeInv P l) (hr : TreeInv P rt)
      (hperm : (l.indices ++ rt.indices).Perm is) :
      TreeInv P (.node is c r l rt)

theorem TreeInv.ball {d : ℕ} {P : List (Vec d)} {t : BallNode d}
    (h : TreeInv P t) :
    ∀ i ∈ t.indices, ∃ hi : i < P.length,
      dist t.center (P.get ⟨i, hi⟩) ≤ t.radius := by
  cases h with
  | leaf hball hnd => exact hball
  | node hball hnd hl hr hperm => exact hball

theorem TreeInv.nodup {d : ℕ} {P : List (Vec d)} {t : BallNode d}
    (h : TreeInv P t) : t.indices.Nodup := by
  cases h with
  | leaf hball hnd => exact hnd
  | node hball hnd hl hr hperm => exact hnd

/-- An entry of the result list is genuine: its index is in range and its
first component is that point's distance to the query. -/
def entryOk {d : ℕ} (P : List (Vec d)) (q : Vec d) (p : ℝ × ℕ) : Prop :=
  ∃ h : p.2 < P.length, p.1 = dist q (P.get ⟨p.2, h⟩)

/-- Invariant of the `results` list: sorted by distance, distinct indices,
genuine entries. -/
def ValidRes {d : ℕ} (P : List (Vec d)) (q : Vec d) (R : List (ℝ × ℕ)) : Prop :=
  R.Pairwise (fun a b => a.1 ≤ b.1) ∧ (R.map Prod.snd).Nodup ∧
    ∀ p ∈ R, entryOk P q p

/-- Postcondition of one search pass over the index set `S`, relating the
result list before (`R`) and after (`R'`):
the invariant is kept; the length is `min k (|R| + |S|)`; no foreign indices
appear; every index of `S` is either kept or provably no closer than the
final worst kept distance (with the list full); every previously-kept entry is
either kept or superseded; and once full the worst distance never worsens. -/
def Post {d : ℕ} (P : List (Vec d)) (q : Vec d) (k : ℕ) (S : List ℕ)
    (R R' : List (ℝ × ℕ)) : Prop :=
  ValidRes P q R' ∧
  R'.length = min k (R.length + S.length) ∧
  (∀ i ∈ R'.map Prod.snd, i ∈ R.map Prod.snd ∨ i ∈ S) ∧
  (∀ i ∈ S, ∀ h : i < P.length,
    i ∈ R'.map Prod.snd ∨ (R'.length = k ∧ worst R' ≤ dist q (P.get ⟨i, h⟩))) ∧
  (∀ p ∈ R, p.2 ∈ R'.map Prod.snd ∨ (R'.length = k ∧ worst R' ≤ p.1)) ∧
  (R.length = k → worst R' ≤ worst R)

theorem worst_eq_getLast {R : List (ℝ × ℕ)} (h : R ≠ []) :
    worst R = (R.getLast h).1 := by
  simp [worst, List.getLast?_eq_getLast R h]

theorem le_worst_of_mem {R : List (ℝ × ℕ)}
    (hs : R.Pairwise (fun a b => a.1 ≤ b.1)) {p : ℝ × ℕ} (hp : p ∈ R) :
    p.1 ≤ worst R := by
  induction R with
  | nil => cases hp
  | cons a t ih =>
    rw [List.pairwise_cons] at hs
    match t with
    | [] =>
      rw [List.mem_singleton] at hp
      subst hp
      simp [worst]
    | b :: t' =>
      have hw : worst (a :: b :: t') = worst (b :: t') := by
        simp [worst, List.getLast?_cons_cons]
      rw [hw]
      rcases List.mem_cons.mp hp with rfl | hp'
      · rw [worst_eq_getLast (by simp : (b :: t') ≠ [])]
        exact hs.1 _ (List.getLast_mem _)
      · exact ih hs.2 hp'

theorem worst_le_of_forall {R : List (ℝ × ℕ)} (h : R ≠ []) {B : ℝ}
    (hb : ∀ p ∈ R, p.1 ≤ B) : worst R ≤ B := by
  rw [worst_eq_getLast h]
  exact hb _ (List.getLast_mem h)

theorem rinsert_perm (x : ℝ × ℕ) (R : List (ℝ × ℕ)) :
    (rinsert x R).Perm (x :: R) := by
  induction R with
  | nil => simp [rinsert]
  | cons y ys ih =>
    unfold rinsert
    split
    · exact List.Perm.refl _
    · exact ((ih.cons y).trans (List.Perm.swap x y ys))

theorem length_rinsert (x : ℝ × ℕ) (R : List (ℝ × ℕ)) :
    (rinsert x R).length = R.length + 1 := by
  have := (rinsert_perm x R).length_eq
  simpa using this

theorem mem_rinsert {x p : ℝ × ℕ} {R : List (ℝ × ℕ)} :
    p ∈ rinsert x R ↔ p = x ∨ p ∈ R := by
  rw [(rinsert_perm x R).mem_iff, List.mem_cons]

theorem rinsert_sorted {x : ℝ × ℕ} {R : List (ℝ × ℕ)}
    (hs : R.Pairwise (fun a b => a.1 ≤ b.1)) :
    (rinsert x R).Pairwise (fun a b => a.1 ≤ b.1) := by
  induction R with
  | nil => simp [rinsert]
  | cons y ys ih =>
    rw [List.pairwise_cons] at hs
    obtain ⟨hy, hys⟩ := hs
    unfold rinsert
    split <;> rename_i hxy
    · have hxle : x.1 ≤ y.1 := by
        rcases hxy with h | ⟨h, _⟩
        · exact le_of_lt h
        · exact le_of_eq h
      refine List.Pairwise.cons ?_ (List.Pairwise.cons hy hys)
      intro b hb
      rcases List.mem_cons.mp hb with rfl | hb'
      · exact hxle
      · exact hxle.trans (hy b hb')
    · have hyx : y.1 ≤ x.1 := by
        push_neg at hxy
        exact hxy.1
      refine List.Pairwise.cons ?_ (ih hys)
      intro b hb
      rcases mem_rinsert.mp hb with rfl | hb'
      · exact hyx
      · exact hy b hb'

theorem post_perm {d : ℕ} {P : List (Vec d)} {q : Vec d} {k : ℕ}
    {S S' : List ℕ} {R R' : List (ℝ × ℕ)}
    (hp : S.Perm S') (h : Post P q k S R R') : Post P q k S' R R' := by
  obtain ⟨hV, hlen, hsub, hS, hR, hw⟩ := h
  refine ⟨hV, by rw [hlen, hp.length_eq], ?_, ?_, hR, hw⟩
  · intro i hi
    exact (hsub i hi).imp id hp.mem_iff.mp
  · intro i hi
    exact hS i (hp.mem_iff.mpr hi)

theorem post_prune {d : ℕ} {P : List (Vec d)} {q : Vec d} {k : ℕ}
    {S : List ℕ} {R : List (ℝ × ℕ)}
    (hV : ValidRes P q R) (hfull : R.length = k)
    (hfar : ∀ i ∈ S, ∀ h : i < P.length, worst R ≤ dist q (P.get ⟨i, h⟩)) :
    Post P q k S R R := by
  refine ⟨hV, ?_, fun i hi => Or.inl hi,
    fun i hi h => Or.inr ⟨hfull, hfar i hi h⟩,
    fun p hp => Or.inl (List.mem_map_of_mem _ hp), fun _ => le_refl _⟩
  omega

theorem post_comp {d : ℕ} {P : List (Vec d)} {q : Vec d} {k : ℕ}
    {S1 S2 : List ℕ} {R R1 R2 : List (ℝ × ℕ)}
    (hVR : ValidRes P q R)
    (h1 : Post P q k S1 R R1) (h2 : Post P q k S2 R1 R2) :
    Post P q k (S1 ++ S2) R R2 := by
  obtain ⟨hV1, hlen1, hsub1, hS1, hR1, hw1⟩ := h1
  obtain ⟨hV2, hlen2, hsub2, hS2, hR2, hw2⟩ := h2
  refine ⟨hV2, ?_, ?_, ?_, ?_, ?_⟩
  · rw [hlen2, hlen1, List.length_append]
    omega
  · intro i hi
    rcases hsub2 i hi with h | h
    · exact (hsub1 i h).imp id (List.mem_append_left _)
    · exact Or.inr (List.mem_append_right _ h)
  · intro i hi hip
    rcases List.mem_append.mp hi with hi1 | hi2
    · rcases hS1 i hi1 hip with hin | ⟨hfull, hle⟩
      · obtain ⟨p, hpR1, hpi⟩ := List.mem_map.mp hin
        rcases hR2 p hpR1 with hin2 | ⟨hfull2, hle2⟩
        · exact Or.inl (hpi ▸ hin2)
        · refine Or.inr ⟨hfull2, ?_⟩
          obtain ⟨hlt, heq⟩ := hV1.2.2 p hpR1
          have : p.1 = dist q (P.get ⟨i, hip⟩) := by
            subst hpi
            exact heq
          exact this ▸ hle2
      · have hfull2 : R2.length = k := by rw [hlen2, hfull]; omega
        refine Or.inr ⟨hfull2, le_trans (hw2 hfull) hle⟩
    · exact hS2 i hi2 hip
  · intro p hp
    rcases hR1 p hp with hin | ⟨hfull, hle⟩
    · obtain ⟨p', hp'R1, hp'i⟩ := List.mem_map.mp hin
      rcases hR2 p' hp'R1 with hin2 | ⟨hfull2, hle2⟩
      · exact Or.inl (hp'i ▸ hin2)
      · refine Or.inr ⟨hfull2, ?_⟩
        obtain ⟨hlt, heq⟩ := hV1.2.2 p' hp'R1
        obtain ⟨hlt0, heq0⟩ := hVR.2.2 p hp
        have : p'.1 = p.1 := by
          rw [heq, heq0]
          have hfin : (⟨p'.2, hlt⟩ : Fin P.length) = ⟨p.2, hlt0⟩ :=
            Fin.ext (by simpa using hp'i)
          rw [hfin]
        exact this ▸ hle2
    · have hfull2 : R2.length = k := by rw [hlen2, hfull]; omega
      exact Or.inr ⟨hfull2, le_trans (hw2 hfull) hle⟩
  · intro hfullR
    have hfull1 : R1.length = k := by rw [hlen1, hfullR]; omega
    exact le_trans (hw2 hfull1) (hw1 hfullR)

theorem post_nil {d : ℕ} {P : List (Vec d)} {q : Vec d} {k : ℕ}
    {R : List (ℝ × ℕ)} (hV : ValidRes P q R) (hRk : R.length ≤ k) :
    Post P q k [] R R := by
  refine ⟨hV, by simp; omega, fun i hi => Or.inl hi, by simp,
    fun p hp => Or.inl (List.mem_map_of_mem _ hp), fun _ => le_refl _⟩

theorem post_one {d : ℕ} {P : List (Vec d)} {q : Vec d} {k : ℕ}
    {R : List (ℝ × ℕ)} {i : ℕ}
    (hV : ValidRes P q R) (hRk : R.length ≤ k) (hk : 1 ≤ k)
    (hiP : i < P.length) (hi : i ∉ R.map Prod.snd) :
    Post P q k [i] R
      (if R.length < k then rinsert (dist q (P.get ⟨i, hiP⟩), i) R
       else if dist q (P.get ⟨i, hiP⟩) < worst R then
         rinsert (dist q (P.get ⟨i, hiP⟩), i) R.dropLast
       else R) := by
  set dv := dist q (P.get ⟨i, hiP⟩) with hdv
  by_cases hlt : R.length < k
  · rw [if_pos hlt]
    have hperm := rinsert_perm (dv, i) R
    have hmemx : (dv, i) ∈ rinsert (dv, i) R := mem_rinsert.mpr (Or.inl rfl)
    refine ⟨⟨rinsert_sorted hV.1, ?_, ?_⟩, ?_, ?_, ?_, ?_, ?_⟩
    · rw [(hperm.map Prod.snd).nodup_iff]
      exact List.nodup_cons.mpr ⟨hi, hV.2.1⟩
    · intro p hp
      rcases mem_rinsert.mp hp with rfl | hp'
      · exact ⟨hiP, rfl⟩
      · exact hV.2.2 p hp'
    · rw [length_rinsert]
      simp only [List.length_cons, List.length_nil]
      omega
    · intro i' hi'
      rw [(hperm.map Prod.snd).mem_iff] at hi'
      rcases List.mem_cons.mp hi' with rfl | h
      · exact Or.inr (List.mem_singleton_self _)
      · exact Or.inl h
    · intro i' hi' h'
      rw [List.mem_singleton] at hi'
      subst hi'
      exact Or.inl (List.mem_map_of_mem _ hmemx)
    · intro p hp
      exact Or.inl (List.mem_map_of_mem _ (mem_rinsert.mpr (Or.inr hp)))
    · intro hfull
      omega
  · have hfull : R.length = k := by omega
    have hne : R ≠ [] := by
      intro h
      rw [h] at hfull
      simp at hfull
      omega
    rw [if_neg hlt]
    by_cases hclose : dv < worst R
    · rw [if_pos hclose]
      have hsubl : R.dropLast.Sublist R := List.dropLast_sublist R
      have hperm := rinsert_perm (dv, i) R.dropLast
      have hmemx : (dv, i) ∈ rinsert (dv, i) R.dropLast :=
        mem_rinsert.mpr (Or.inl rfl)
      have hlen1 : (rinsert (dv, i) R.dropLast).length = k := by
        rw [length_rinsert, List.length_dropLast]
        omega
      have hne1 : rinsert (dv, i) R.dropLast ≠ [] := by
        intro h
        rw [h] at hlen1
        simp at hlen1
        omega
      have hwle : worst (rinsert (dv, i) R.dropLast) ≤ worst R := by
        refine worst_le_of_forall hne1 ?_
        intro p hp
        rcases mem_rinsert.mp hp with rfl | hp'
        · exact le_of_lt hclose
        · exact le_worst_of_mem hV.1 (hsubl.mem hp')
      refine ⟨⟨rinsert_sorted (hV.1.sublist hsubl), ?_, ?_⟩, ?_, ?_, ?_, ?_, ?_⟩
      · rw [(hperm.map Prod.snd).nodup_iff]
        refine List.nodup_cons.mpr ⟨?_, (hV.2.1).sublist (hsubl.map Prod.snd)⟩
        intro hmem
        exact hi ((hsubl.map Prod.snd).mem hmem)
      · intro p hp
        rcases mem_rinsert.mp hp with rfl | hp'
        · exact ⟨hiP, rfl⟩
        · exact hV.2.2 p (hsubl.mem hp')
      · rw [hlen1]
        simp only [List.length_cons, List.length_nil]
        omega
      · intro i' hi'
        rw [(hperm.map Prod.snd).mem_iff] at hi'
        rcases List.mem_cons.mp hi' with rfl | h
        · exact Or.inr (List.mem_singleton_self _)
        · exact Or.inl ((hsubl.map Prod.snd).mem h)
      · intro i' hi' h'
        rw [List.mem_singleton] at hi'
        subst hi'
        exact Or.inl (List.mem_map_of_mem _ hmemx)
      · intro p hp
        have hdec : R.dropLast ++ [R.getLast hne] = R :=
          List.dropLast_append_getLast hne
        rw [← hdec] at hp
        rcases List.mem_append.mp hp with hp' | hp'
        · exact Or.inl (List.mem_map_of_mem _ (mem_rinsert.mpr (Or.inr hp')))
        · rw [List.mem_singleton] at hp'
          subst hp'
          refine Or.inr ⟨hlen1, ?_⟩
          rw [← worst_eq_getLast hne]
          exact hwle
      · intro _
        exact hwle
    · rw [if_neg hclose]
      refine @post_prune _ P q k [i] R hV hfull ?_
      intro i' hi' h'
      rw [List.mem_singleton] at hi'
      subst hi'
      exact le_of_not_lt hclose

theorem post_length_le {d : ℕ} {P : List (Vec d)} {q : Vec d} {k : ℕ}
    {S : List ℕ} {R R' : List (ℝ × ℕ)} (h : Post P q k S R R') :
    R'.length ≤ k := by
  rw [h.2.1]
  omega

theorem post_leafUpdate {d : ℕ} {P : List (Vec d)} {q : Vec d} {k : ℕ}
    (is : List ℕ) (R : List (ℝ × ℕ))
    (hV : ValidRes P q R) (hRk : R.length ≤ k) (hk : 1 ≤ k)
    (hnd : is.Nodup) (hval : ∀ i ∈ is, i < P.length)
    (hdisj : ∀ i ∈ is, i ∉ R.map Prod.snd) :
    Post P q k is R (leafUpdate P q k is R) := by
  induction is generalizing R with
  | nil =>
    unfold leafUpdate
    exact post_nil hV hRk
  | cons i is ih =>
    have hiP : i < P.length := hval i (List.mem_cons_self i is)
    rw [List.nodup_cons] at hnd
    have h1 : Post P q k [i] R
        (if R.length < k then rinsert (dist q (P.get ⟨i, hiP⟩), i) R
         else if dist q (P.get ⟨i, hiP⟩) < worst R then
           rinsert (dist q (P.get ⟨i, hiP⟩), i) R.dropLast
         else R) :=
      post_one hV hRk hk hiP (hdisj i (List.mem_cons_self i is))
    set R1 := (if R.length < k then rinsert (dist q (P.get ⟨i, hiP⟩), i) R
         else if dist q (P.get ⟨i, hiP⟩) < worst R then
           rinsert (dist q (P.get ⟨i, hiP⟩), i) R.dropLast
         else R) with hR1
    have hstep : leafUpdate P q k (i :: is) R = leafUpdate P q k is R1 := by
      rw [leafUpdate, dif_pos hiP, hR1]
      by_cases h' : R.length < k
      · rw [if_pos h', if_pos h']
      · rw [if_neg h', if_neg h']
        by_cases h'' : dist q (P.get ⟨i, hiP⟩) < worst R
        · rw [if_pos h'', if_pos h'']
        · rw [if_neg h'', if_neg h'']
    rw [hstep]
    have h2 : Post P q k is R1 (leafUpdate P q k is R1) := by
      refine ih R1 h1.1 (post_length_le h1) hnd.2 (fun j hj => hval j (List.mem_cons_of_mem _ hj)) ?_
      intro j hj hjmem
      rcases h1.2.2.1 j hjmem with h | h
      · exact hdisj j (List.mem_cons_of_mem _ hj) h
      · rw [List.mem_singleton] at h
        subst h
        exact hnd.1 hj
    have := post_comp hV h1 h2
    simpa using this

theorem post_searchNode {d : ℕ} {P : List (Vec d)} {q : Vec d} {k : ℕ}
    (t : BallNode d) (R : List (ℝ × ℕ))
    (ht : TreeInv P t)
    (hV : ValidRes P q R) (hRk : R.length ≤ k) (hk : 1 ≤ k)
    (hdisj : ∀ i ∈ t.indices, i ∉ R.map Prod.snd) :
    Post P q k t.indices R (searchNode P q k t R) := by
  induction ht generalizing R with
  | leaf hball hnd =>
    rw [searchNode]
    exact post_leafUpdate _ R hV hRk hk hnd
      (fun i hi => (hball i hi).choose) hdisj
  | node hball hnd hl hr hperm ihl ihr =>
      rename_i is c r l rt
      rw [searchNode]
      have hLdisj : ∀ i ∈ l.indices, i ∉ R.map Prod.snd := fun i hi =>
        hdisj i (hperm.mem_iff.mp (List.mem_append_left _ hi))
      have hRdisj : ∀ i ∈ rt.indices, i ∉ R.map Prod.snd := fun i hi =>
        hdisj i (hperm.mem_iff.mp (List.mem_append_right _ hi))
      have hLRdisj : ∀ i ∈ l.indices, i ∉ rt.indices := by
        have hnd' : (l.indices ++ rt.indices).Nodup :=
          (hperm.nodup_iff).mpr hnd
        intro i hi hirt
        exact (List.disjoint_of_nodup_append hnd') hi hirt
      by_cases hgo : R.length < k ∨ dist q c - r ≤ worst R
      · rw [if_pos hgo]
        by_cases hside : dist q l.center < dist q rt.center
        · rw [if_pos hside]
          have hpl : Post P q k l.indices R (searchNode P q k l R) :=
            ihl R hV hRk hLdisj
          set R1 := searchNode P q k l R with hR1def
          have hdisj2 : ∀ i ∈ rt.indices, i ∉ R1.map Prod.snd := by
            intro i hi hmem
            rcases hpl.2.2.1 i hmem with h | h
            · exact hRdisj i hi h
            · exact hLRdisj i h hi
          by_cases hgo2 : R1.length < k ∨ dist q rt.center - rt.radius ≤ worst R1
          · rw [if_pos hgo2]
            have hpr : Post P q k rt.indices R1 (searchNode P q k rt R1) :=
              ihr R1 hpl.1 (post_length_le hpl) hdisj2
            exact post_perm hperm (post_comp hV hpl hpr)
          · rw [if_neg hgo2]
            push_neg at hgo2
            have hfull1 : R1.length = k := le_antisymm (post_length_le hpl) hgo2.1
            have hpr : Post P q k rt.indices R1 R1 := by
              refine post_prune hpl.1 hfull1 ?_
              intro i hi hip
              obtain ⟨hip', hballi⟩ := hr.ball i hi
              have htri : dist q rt.center - rt.radius ≤ dist q (P.get ⟨i, hip⟩) := by
                have h1 : dist q rt.center ≤
                    dist q (P.get ⟨i, hip'⟩) + dist (P.get ⟨i, hip'⟩) rt.center :=
                  dist_triangle _ _ _
                have h2 : dist (P.get ⟨i, hip'⟩) rt.center ≤ rt.radius := by
                  rw [dist_comm]
                  exact hballi
                have : dist q (P.get ⟨i, hip'⟩) = dist q (P.get ⟨i, hip⟩) := rfl
                linarith
              linarith [hgo2.2]
            exact post_perm hperm (post_comp hV hpl hpr)
        · rw [if_neg hside]
          have hpr : Post P q k rt.indices R (searchNode P q k rt R) :=
            ihr R hV hRk hRdisj
          set R1 := searchNode P q k rt R with hR1def
          have hdisj2 : ∀ i ∈ l.indices, i ∉ R1.map Prod.snd := by
            intro i hi hmem
            rcases hpr.2.2.1 i hmem with h | h
            · exact hLdisj i hi h
            · exact hLRdisj i hi h
          by_cases hgo2 : R1.length < k ∨ dist q l.center - l.radius ≤ worst R1
          · rw [if_pos hgo2]
            have hpl : Post P q k l.indices R1 (searchNode P q k l R1) :=
              ihl R1 hpr.1 (post_length_le hpr) hdisj2
            refine post_perm (List.Perm.trans ?_ hperm) (post_comp hV hpr hpl)
            exact List.perm_append_comm
          · rw [if_neg hgo2]
            push_neg at hgo2
            have hfull1 : R1.length = k := le_antisymm (post_length_le hpr) hgo2.1
            have hpl : Post P q k l.indices R1 R1 := by
              refine post_prune hpr.1 hfull1 ?_
              intro i hi hip
              obtain ⟨hip', hballi⟩ := hl.ball i hi
              have htri : dist q l.center - l.radius ≤ dist q (P.get ⟨i, hip⟩) := by
                have h1 : dist q l.center ≤
                    dist q (P.get ⟨i, hip'⟩) + dist (P.get ⟨i, hip'⟩) l.center :=
                  dist_triangle _ _ _
                have h2 : dist (P.get ⟨i, hip'⟩) l.center ≤ l.radius := by
                  rw [dist_comm]
                  exact hballi
                have : dist q (P.get ⟨i, hip'⟩) = dist q (P.get ⟨i, hip⟩) := rfl
                linarith
              linarith [hgo2.2]
            refine post_perm (List.Perm.trans ?_ hperm) (post_comp hV hpr hpl)
            exact List.perm_append_comm
      · rw [if_neg hgo]
        push_neg at hgo
        have hfull : R.length = k := le_antisymm hRk hgo.1
        refine post_prune hV hfull ?_
        intro i hi hip
        obtain ⟨hip', hballi⟩ := hball i hi
        have htri : dist q c - r ≤ dist q (P.get ⟨i, hip⟩) := by
          have h1 : dist q c ≤
              dist q (P.get ⟨i, hip'⟩) + dist (P.get ⟨i, hip'⟩) c :=
            dist_triangle _ _ _
          have h2 : dist (P.get ⟨i, hip'⟩) c ≤ r := by
            rw [dist_comm]
            exact hballi
          have : dist q (P.get ⟨i, hip'⟩) = dist q (P.get ⟨i, hip⟩) := rfl
          linarith
        linarith [hgo.2]

theorem le_foldr_max {x : ℝ} {l : List ℝ} (hx : x ∈ l) : x ≤ l.foldr max 0 := by
  induction l with
  | nil => cases hx
  | cons a t ih =>
    rcases List.mem_cons.mp hx with rfl | hx'
    · exact le_max_left _ _
    · exact le_trans (ih hx') (le_max_right _ _)

theorem radiusOf_mem {d : ℕ} {c p : Vec d} {ps : List (Vec d)} (hp : p ∈ ps) :
    dist c p ≤ radiusOf c ps :=
  le_foldr_max (List.mem_map_of_mem _ hp)

theorem list_sum_zero_of_nonneg {l : List ℝ} (h0 : ∀ x ∈ l, 0 ≤ x)
    (hs : l.sum = 0) : ∀ x ∈ l, x = 0 := by
  induction l with
  | nil => simp
  | cons a t ih =>
    simp only [List.sum_cons] at hs
    have ha : 0 ≤ a := h0 a (List.mem_cons_self a t)
    have ht : 0 ≤ t.sum :=
      List.sum_nonneg (fun x hx => h0 x (List.mem_cons_of_mem _ hx))
    intro x hx
    rcases List.mem_cons.mp hx with rfl | hx'
    · linarith
    · exact ih (fun y hy => h0 y (List.mem_cons_of_mem _ hy)) (by linarith) x hx'

theorem allVarZero_eq_centroid {d : ℕ} {ps : List (Vec d)}
    (hv : ∀ j < d, varAtN ps j = 0) : ∀ p ∈ ps, p = centroid ps := by
  intro p hp
  have hlen : ps.length ≠ 0 := by
    intro h
    rw [List.length_eq_zero] at h
    subst h
    cases hp
  funext j
  have hj := hv j.1 j.2
  unfold varAtN at hj
  have hsum : (ps.map (fun p => (coord p j.1 - coord (centroid ps) j.1) ^ 2)).sum = 0 := by
    by_contra hne
    have : (ps.length : ℝ) ≠ 0 := Nat.cast_ne_zero.mpr hlen
    exact hne (by field_simp at hj; exact hj)
  have hterm := @list_sum_zero_of_nonneg
    (ps.map (fun p => (coord p j.1 - coord (centroid ps) j.1) ^ 2))
    (fun x hx => by
      obtain ⟨p', _, rfl⟩ := List.mem_map.mp hx
      positivity) hsum
  have hpz := hterm _ (List.mem_map_of_mem _ hp)
  have : coord p j.1 = coord (centroid ps) j.1 := by
    nlinarith [sq_nonneg (coord p j.1 - coord (centroid ps) j.1)]
  simpa [coord, j.2, Fin.eta] using this

theorem buildNode_indices {d : ℕ} (leafSize : ℕ) (prs : List (Vec d × ℕ)) :
    (buildNode leafSize prs).indices = prs.map Prod.snd := by
  rw [buildNode]
  split
  · split <;> rfl
  · split <;> rfl

theorem buildNode_inv {d : ℕ} (leafSize : ℕ) (P : List (Vec d))
    (prs : List (Vec d × ℕ))
    (hP : ∀ pr ∈ prs, ∃ h : pr.2 < P.length, P.get ⟨pr.2, h⟩ = pr.1)
    (hnd : (prs.map Prod.snd).Nodup) :
    TreeInv P (buildNode leafSize prs) := by
  induction prs using buildNode.induct leafSize with
  | case1 prs h1 h2 =>
    rw [buildNode, if_pos h1, if_pos h2]
    refine TreeInv.leaf ?_ hnd
    intro i hi
    obtain ⟨pr, hpr, rfl⟩ := List.mem_map.mp hi
    obtain ⟨h, hget⟩ := hP pr hpr
    refine ⟨h, ?_⟩
    rw [hget]
    exact radiusOf_mem (List.mem_map_of_mem _ hpr)
  | case2 prs h1 h2 =>
    have hprs : prs = [] := List.length_eq_zero.mp (by omega)
    subst hprs
    rw [buildNode, if_pos h1, if_neg h2]
    refine TreeInv.leaf ?_ (by simp)
    intro i hi
    simp at hi
  | case3 prs h1 hv =>
    rw [buildNode, if_neg h1, dif_pos hv]
    refine TreeInv.leaf ?_ hnd
    have hne : prs ≠ [] := by
      intro h
      rw [h] at h1
      simp at h1
    have hcent := allVarZero_eq_centroid hv
    have hheadI : prs.headI ∈ prs := by
      cases prs with
      | nil => exact absurd rfl hne
      | cons a t => exact List.mem_cons_self a t
    have hhead : prs.headI.1 = centroid (prs.map Prod.fst) :=
      hcent _ (List.mem_map_of_mem _ hheadI)
    intro i hi
    obtain ⟨pr, hpr, rfl⟩ := List.mem_map.mp hi
    obtain ⟨h, hget⟩ := hP pr hpr
    refine ⟨h, ?_⟩
    rw [hget, hhead, hcent _ (List.mem_map_of_mem _ hpr), dist_self]
  | case4 prs h1 hv j sorted m iht ihd =>
    rw [buildNode, if_neg h1, dif_neg hv]
    have hsp : sorted.Perm prs := List.perm_insertionSort _ _
    have hsnd : (sorted.map Prod.snd).Nodup :=
      ((hsp.map Prod.snd).nodup_iff).mpr hnd
    have hPtake : ∀ pr ∈ sorted.take m, ∃ h : pr.2 < P.length,
        P.get ⟨pr.2, h⟩ = pr.1 :=
      fun pr hpr => hP pr (hsp.mem_iff.mp (List.take_subset _ _ hpr))
    have hPdrop : ∀ pr ∈ sorted.drop m, ∃ h : pr.2 < P.length,
        P.get ⟨pr.2, h⟩ = pr.1 :=
      fun pr hpr => hP pr (hsp.mem_iff.mp (List.drop_subset _ _ hpr))
    have hndtake : ((sorted.take m).map Prod.snd).Nodup :=
      hsnd.sublist ((List.take_sublist m sorted).map Prod.snd)
    have hnddrop : ((sorted.drop m).map Prod.snd).Nodup :=
      hsnd.sublist ((List.drop_sublist m sorted).map Prod.snd)
    refine TreeInv.node ?_ hnd (iht hPtake hndtake) (ihd hPdrop hnddrop) ?_
    · intro i hi
      obtain ⟨pr, hpr, rfl⟩ := List.mem_map.mp hi
      obtain ⟨h, hget⟩ := hP pr hpr
      refine ⟨h, ?_⟩
      rw [hget]
      exact radiusOf_mem (List.mem_map_of_mem _ hpr)
    · rw [buildNode_indices, buildNode_indices, ← List.map_append,
        List.take_append_drop]
      exact hsp.map Prod.snd

theorem idxPairs_map_snd {d : ℕ} (P : List (Vec d)) :
    (idxPairs P).map Prod.snd = List.range P.length := by
  simp only [idxPairs, List.map_map]
  have : (Prod.snd ∘ fun i => ((P.getD i 0 : Vec d), i)) = id := rfl
  rw [this, List.map_id]

theorem idxPairs_ok {d : ℕ} (P : List (Vec d)) :
    ∀ pr ∈ idxPairs P, ∃ h : pr.2 < P.length, P.get ⟨pr.2, h⟩ = pr.1 := by
  intro pr hpr
  obtain ⟨i, hi, rfl⟩ := List.mem_map.mp hpr
  rw [List.mem_range] at hi
  refine ⟨hi, ?_⟩
  simp [List.getD_eq_getElem, List.getElem?_eq_getElem hi]

theorem treeSearch_post {d : ℕ} (leafSize : ℕ) (P : List (Vec d)) (q : Vec d)
    (k : ℕ) (hn : ¬P.length = 0) (hk : ¬min k P.length = 0) :
    Post P q (min k P.length) (List.range P.length) []
      (treeSearch leafSize P q k) := by
  have hroot := buildNode_inv leafSize P (idxPairs P) (idxPairs_ok P)
    (by rw [idxPairs_map_snd]; exact List.nodup_range _)
  have hpost := @post_searchNode d P q (min k P.length)
    (buildNode leafSize (idxPairs P)) [] hroot
    ⟨List.Pairwise.nil, List.nodup_nil, by simp⟩ (by simp) (by omega) (by simp)
  rw [buildNode_indices, idxPairs_map_snd] at hpost
  rw [treeSearch, if_neg hn, if_neg hk]
  exact hpost

/-- C1: for every built ball tree over `n` points and every query vector `q`
with `k ≤ n`, the results returned by `BallTree.search` are exact nearest
neighbours: no indexed point that is not returned lies strictly closer to `q`
than any returned point (the pruning rule never skips a ball that could hold a
closer point than the current k-th best). -/
theorem ballTree_search_exact {d : ℕ} (leafSize k : ℕ) (P : List (Vec d))
    (q : Vec d) (hk : k ≤ P.length) :
    ∀ i, ∀ hi : i < P.length, i ∉ (treeSearch leafSize P q k).map Prod.snd →
      ∀ r ∈ treeSearch leafSize P q k, r.1 ≤ dist q (P.get ⟨i, hi⟩) := by
  intro i hi hnot r hr
  by_cases hn : P.length = 0
  · omega
  by_cases hk0 : min k P.length = 0
  · have : treeSearch leafSize P q k = [] := by
      rw [treeSearch, if_neg hn, if_pos hk0]
    rw [this] at hr
    cases hr
  have hpost := treeSearch_post leafSize P q k hn hk0
  rcases hpost.2.2.2.1 i (List.mem_range.mpr hi) hi with hmem | ⟨_, hle⟩
  · exact absurd hmem hnot
  · exact le_trans (le_worst_of_mem hpost.1.1 hr) hle

/-- Witness for `ballTree_search_exact` at a concrete one-point input. -/
theorem ballTree_search_exact_witness :
    (1 ≤ ([(0 : Vec 1)] : List (Vec 1)).length) ∧
    (∀ i, ∀ hi : i < ([(0 : Vec 1)] : List (Vec 1)).length,
      i ∉ (treeSearch 40 [(0 : Vec 1)] (0 : Vec 1) 1).map Prod.snd →
      ∀ r ∈ treeSearch 40 [(0 : Vec 1)] (0 : Vec 1) 1,
        r.1 ≤ dist (0 : Vec 1) (([(0 : Vec 1)] : List (Vec 1)).get ⟨i, hi⟩)) :=
  ⟨by simp, ballTree_search_exact 40 1 [(0 : Vec 1)] (0 : Vec 1) (by simp)⟩

theorem treeSearch_entries {d : ℕ} (leafSize k : ℕ) (P : List (Vec d))
    (q : Vec d) : ∀ p ∈ treeSearch leafSize P q k, entryOk P q p := by
  intro p hp
  by_cases hn : P.length = 0
  · rw [treeSearch, if_pos hn] at hp
    cases hp
  by_cases hk0 : min k P.length = 0
  · rw [treeSearch, if_neg hn, if_pos hk0] at hp
    cases hp
  exact (treeSearch_post leafSize P q k hn hk0).1.2.2 p hp

/-- C6: the ball-tree search returns exactly `min k n` results, in ascending
distance order, hence with non-increasing similarity `1/(1+d)`; the indexer
wrapper returns the same number of results sorted by non-increasing
similarity.  In particular `k = 0` gives the empty list and `k > n` gives `n`
results. -/
theorem ballTree_search_size_order {d : ℕ} (leafSize k : ℕ) (P : List (Vec d))
    (q : Vec d) :
    (treeSearch leafSize P q k).length = min k P.length ∧
    ((treeSearch leafSize P q k).map (fun p => similarityOf p.1)).Pairwise
      (fun a b => b ≤ a) ∧
    (indexerSearch leafSize P q k).length = min k P.length ∧
    (indexerSearch leafSize P q k).Pairwise (fun a b => b.1 ≤ a.1) := by
  have hlen : ∀ k', (treeSearch leafSize P q k').length = min k' P.length := by
    intro k'
    by_cases hn : P.length = 0
    · rw [treeSearch, if_pos hn]
      simp [hn]
    by_cases hk0 : min k' P.length = 0
    · rw [treeSearch, if_neg hn, if_pos hk0]
      simp [hk0.symm]
    have hpost := treeSearch_post leafSize P q k' hn hk0
    rw [hpost.2.1]
    simp only [List.length_nil, List.length_range, Nat.zero_add]
    omega
  have hsorted : ∀ k', ((treeSearch leafSize P q k').map
      (fun p => similarityOf p.1)).Pairwise (fun a b => b ≤ a) := by
    intro k'
    by_cases hn : P.length = 0
    · rw [treeSearch, if_pos hn]
      simp
    by_cases hk0 : min k' P.length = 0
    · rw [treeSearch, if_neg hn, if_pos hk0]
      simp
    have hpost := treeSearch_post leafSize P q k' hn hk0
    rw [List.pairwise_map]
    refine List.Pairwise.imp_of_mem ?_ hpost.1.1
    intro a b ha hb hab
    obtain ⟨hlt, heq⟩ := hpost.1.2.2 a ha
    have ha0 : 0 ≤ a.1 := heq ▸ dist_nonneg
    unfold similarityOf
    have h1 : (0 : ℝ) < 1 + a.1 := by linarith
    have h2 : (1 : ℝ) + a.1 ≤ 1 + b.1 := by linarith
    exact one_div_le_one_div_of_le h1 h2
  refine ⟨hlen k, hsorted k, ?_, ?_⟩
  · have hp := List.perm_insertionSort
      (fun a b : ℝ × ℕ => b.1 ≤ a.1)
      ((treeSearch leafSize P q (min k P.length)).map
        (fun p => (similarityOf p.1, p.2)))
    rw [indexerSearch, hp.length_eq, List.length_map, hlen]
    omega
  · haveI : IsTotal (ℝ × ℕ) (fun a b => b.1 ≤ a.1) :=
      ⟨fun a b => le_total b.1 a.1⟩
    haveI : IsTrans (ℝ × ℕ) (fun a b => b.1 ≤ a.1) :=
      ⟨fun a b c hab hbc => le_trans hbc hab⟩
    exact List.sorted_insertionSort _ _

/-! ## The in-memory store (`app/database/db.py`)

Python dicts keyed by UUID become association lists keyed by `ℕ`; only key
membership and lookup matter for the verified properties, so the map update
puts the fresh entry in front after erasing the key (Python keeps insertion
order, which none of the properties below observe).  Locks serialise the
operations in the source; the embedding is the sequential semantics.
`model_dump()` / pydantic re-validation are identities on well-typed records
and are dropped.  `str(x) != str(y)` on UUID-valued fields is equality testing
(UUID string forms are injective). -/

/-- Dict lookup `m.get(k)`. -/
def alookup {α : Type} (m : List (ℕ × α)) (i : ℕ) : Option α :=
  (m.find? (fun p => p.1 == i)).map Prod.snd

/-- Dict store `m[k] = v`. -/
def astore {α : Type} (m : List (ℕ × α)) (i : ℕ) (v : α) : List (ℕ × α) :=
  (i, v) :: m.filter (fun p => p.1 != i)

/-- Dict delete `del m[k]` (also total on absent keys, where it is the
identity — the source always guards deletes with membership tests). -/
def aerase {α : Type} (m : List (ℕ × α)) (i : ℕ) : List (ℕ × α) :=
  m.filter (fun p => p.1 != i)

theorem alookup_nil {α : Type} (i : ℕ) : alookup ([] : List (ℕ × α)) i = none := rfl

theorem alookup_cons {α : Type} (p : ℕ × α) (t : List (ℕ × α)) (j : ℕ) :
    alookup (p :: t) j = if p.1 = j then some p.2 else alookup t j := by
  by_cases h : p.1 = j
  · simp [alookup, List.find?_cons_of_pos, h]
  · rw [if_neg h]
    simp only [alookup]
    rw [List.find?_cons_of_neg]
    simp [h]

theorem aerase_cons {α : Type} (p : ℕ × α) (t : List (ℕ × α)) (i : ℕ) :
    aerase (p :: t) i = if p.1 = i then aerase t i else p :: aerase t i := by
  simp only [aerase, List.filter_cons]
  by_cases h : p.1 = i <;> simp [h]

theorem alookup_aerase {α : Type} (m : List (ℕ × α)) (i j : ℕ) :
    alookup (aerase m i) j = if j = i then none else alookup m j := by
  induction m with
  | nil => simp [aerase, alookup]
  | cons p t ih =>
    rw [aerase_cons]
    by_cases hpi : p.1 = i
    · rw [if_pos hpi, ih]
      by_cases hji : j = i
      · simp [hji]
      · rw [if_neg hji, if_neg hji, alookup_cons, if_neg (by omega : ¬p.1 = j)]
    · rw [if_neg hpi, alookup_cons, alookup_cons]
      by_cases hpj : p.1 = j
      · have hji : ¬j = i := by omega
        rw [if_pos hpj, if_neg hji, if_pos hpj]
      · rw [if_neg hpj, if_neg hpj, ih]

theorem alookup_astore {α : Type} (m : List (ℕ × α)) (i j : ℕ) (v : α) :
    alookup (astore m i v) j = if j = i then some v else alookup m j := by
  rw [show astore m i v = (i, v) :: aerase m i from rfl, alookup_cons]
  by_cases hji : j = i
  · simp [hji]
  · rw [if_neg (by omega : ¬i = j), if_neg hji, alookup_aerase, if_neg hji]

theorem alookup_mem {α : Type} {m : List (ℕ × α)} {i : ℕ} {v : α}
    (h : alookup m i = some v) : (i, v) ∈ m := by
  unfold alookup at h
  obtain ⟨p, hfind, hsnd⟩ := Option.map_eq_some'.mp h
  have hmem := List.mem_of_find?_eq_some hfind
  have hkey : p.1 = i := by
    have := List.find?_some hfind
    simpa using this
  have : p = (i, v) := by
    cases p
    simp at hkey hsnd
    simp [hkey, hsnd]
  rwa [this] at hmem

/-! ## Data model (`app/models/*.py`)

Pydantic models become records.  `Document` has no `name` field in the source
(only `id`, `library_id`, `chunks`, `metadata`).  Timestamps are naturals,
float embedding entries are integers (their values are never inspected),
metadata dicts are association lists of strings. -/

/-- `IndexerType` enum. -/
inductive IndexerKind where
  | bruteForce
  | ballTree
deriving DecidableEq, Repr

/-- `IndexStatus` model; the pydantic defaults give `IndexStatus()` below. -/
structure IndexStatus where
  indexed : Bool
  indexerType : Option IndexerKind
  lastIndexed : Option ℕ
  indexingInProgress : Bool
deriving DecidableEq, Repr

/-- `IndexStatus()` — all defaults. -/
def IndexStatus.init : IndexStatus := ⟨false, none, none, false⟩

/-- `Chunk` model. -/
structure ChunkRec where
  id : ℕ
  documentId : Option ℕ
  text : String
  embedding : Option (List Int)
  metadata : List (String × String)
deriving DecidableEq, Repr

/-- `Document` model (note: no `name` field in the source). -/
structure DocumentRec where
  id : ℕ
  libraryId : ℕ
  chunks : List ChunkRec
  metadata : List (String × String)
deriving DecidableEq, Repr

/-- `Library` model. -/
structure LibraryRec where
  id : ℕ
  name : String
  documents : List DocumentRec
  metadata : List (String × String)
  indexStatus : IndexStatus
deriving DecidableEq, Repr

/-- The `DB` singleton: three entity dicts plus the two relationship dicts. -/
structure DB where
  libraries : List (ℕ × LibraryRec)
  documents : List (ℕ × DocumentRec)
  chunks : List (ℕ × ChunkRec)
  documentLibraryMap : List (ℕ × ℕ)
  chunkDocumentMap : List (ℕ × ℕ)
deriving DecidableEq, Repr

/-- A freshly constructed `DB()`. -/
def DB.empty : DB := ⟨[], [], [], [], []⟩

/-! ## Partial-update dictionaries

`update(id, data)` takes a Python dict of fields to replace; a field of the
update record is `some v` when the corresponding key is present.  For
`Chunk.document_id` the dict value itself is optional, hence the nested
`Option`. -/

/-- Partial data for `update_chunk`. -/
structure ChunkUpdate where
  documentId : Option (Option ℕ) := none
  text : Option String := none
  embedding : Option (Option (List Int)) := none
  metadata : Option (List (String × String)) := none

/-- `current_chunk.update(chunk_data)`. -/
def applyChunkUpdate (c : ChunkRec) (u : ChunkUpdate) : ChunkRec :=
  { c with
    documentId := u.documentId.getD c.documentId
    text := u.text.getD c.text
    embedding := u.embedding.getD c.embedding
    metadata := u.metadata.getD c.metadata }

/-- Partial data for `update_document`. -/
structure DocUpdate where
  libraryId : Option ℕ := none
  chunks : Option (List ChunkRec) := none
  metadata : Option (List (String × String)) := none

/-- `current_document.update(document_data)`. -/
def applyDocUpdate (dc : DocumentRec) (u : DocUpdate) : DocumentRec :=
  { dc with
    libraryId := u.libraryId.getD dc.libraryId
    chunks := u.chunks.getD dc.chunks
    metadata := u.metadata.getD dc.metadata }

/-- Partial data for `update_library`. -/
structure LibUpdate where
  name : Option String := none
  documents : Option (List DocumentRec) := none
  metadata : Option (List (String × String)) := none
  indexStatus : Option IndexStatus := none

/-- `current_library.update(library_data)`. -/
def applyLibUpdate (l : LibraryRec) (u : LibUpdate) : LibraryRec :=
  { l with
    name := u.name.getD l.name
    documents := u.documents.getD l.documents
    metadata := u.metadata.getD l.metadata
    indexStatus := u.indexStatus.getD l.indexStatus }

/-! ## `app/database/chunk_db.py`

Each operation returns its Python value together with the store reached when
it returns or raises.  The chunk operations acquire the three store locks
strictly in sequence, so run standalone they always complete; their closing
`save_library` call only reads the store (and writes a file) and is elided
here — snapshot contents are verified separately below.  The document and
library write paths instead re-acquire locks they already hold; those are
modelled in the lock-discipline layer further down. -/

/-- `create_chunk`. -/
def createChunk (db : DB) (c : ChunkRec) : Except String ChunkRec × DB :=
  if (alookup db.chunks c.id).isSome then
    (.error ("Chunk with ID " ++ toString c.id ++ " already exists"), db)
  else
    match c.documentId with
    | some did =>
      if (alookup db.documents did).isNone then
        (.error ("Document with ID " ++ toString did ++ " does not exist"), db)
      else
        (.ok c, { db with
          chunks := astore db.chunks c.id c
          chunkDocumentMap := astore db.chunkDocumentMap c.id did })
    | none =>
      -- the `document_id is not None` guards both skip: the chunk is stored
      -- and no relationship entry is made
      (.ok c, { db with chunks := astore db.chunks c.id c })

/-- `get_chunk`. -/
def getChunk (db : DB) (i : ℕ) : Option ChunkRec :=
  alookup db.chunks i

/-- `update_chunk`. -/
def updateChunk (db : DB) (i : ℕ) (u : ChunkUpdate) :
    Except String (Option ChunkRec) × DB :=
  match alookup db.chunks i with
  | none => (.ok none, db)
  | some cur =>
    match u.documentId with
    | some newDid =>
      if newDid ≠ cur.documentId then
        (.error "Cannot change document_id of an existing chunk", db)
      else
        (.ok (some (applyChunkUpdate cur u)),
          { db with chunks := astore db.chunks i (applyChunkUpdate cur u) })
    | none =>
      (.ok (some (applyChunkUpdate cur u)),
        { db with chunks := astore db.chunks i (applyChunkUpdate cur u) })

/-- `delete_chunk`. -/
def deleteChunk (db : DB) (i : ℕ) : Bool × DB :=
  if (alookup db.chunks i).isNone then (false, db)
  else
    (true, { db with
      chunks := aerase db.chunks i
      chunkDocumentMap :=
        if (alookup db.chunkDocumentMap i).isSome then
          aerase db.chunkDocumentMap i
        else db.chunkDocumentMap })

/-! ## `app/database/document_db.py` -/

/-- `get_document`. -/
def getDocument (db : DB) (i : ℕ) : Option DocumentRec :=
  alookup db.documents i

/-- `update_document`, as far as the raising paths and the store mutation go:
both validation errors fire before anything is written.  On the success path
the source afterwards calls `save_library` while still holding
`document_lock`; whether that call ever returns is settled by
`updateDocumentL` in the lock-discipline layer below — the raising paths,
which are all this definition is used for, return before any nested
acquisition. -/
def updateDocument (db : DB) (i : ℕ) (u : DocUpdate) :
    Except String (Option DocumentRec) × DB :=
  match alookup db.documents i with
  | none => (.ok none, db)
  | some cur =>
    if (match u.libraryId with
        | some newL => decide (newL ≠ cur.libraryId)
        | none => false) then
      (.error "Cannot change library_id of an existing document", db)
    else if u.chunks.isSome then
      (.error "Cannot update chunks through document update. Use chunk API instead.",
        db)
    else
      (.ok (some (applyDocUpdate cur u)),
        { db with documents := astore db.documents i (applyDocUpdate cur u) })

/-! ## `app/database/library_db.py` -/

/-- `get_library`. -/
def getLibrary (db : DB) (i : ℕ) : Option LibraryRec :=
  alookup db.libraries i

/-- `update_library`. -/
def updateLibrary (db : DB) (i : ℕ) (u : LibUpdate) :
    Except String (Option LibraryRec) × DB :=
  match alookup db.libraries i with
  | none => (.ok none, db)
  | some cur =>
    if u.documents.isSome then
      (.error "Cannot update documents through library update. Use document API instead.",
        db)
    else
      (.ok (some (applyLibUpdate cur u)),
        { db with libraries := astore db.libraries i (applyLibUpdate cur u) })

/-! ## `app/services/library_service.py`, `document_service.py`,
`chunk_service.py`

UUID values are always truthy in Python, so `if document.library_id:` is
taken whenever the field exists; `Chunk.document_id` is optional and its
truthiness is `isSome`.  The indexer registry (`library_indexers`) lives
outside the store; where a property needs it, it is passed as a flag. -/

/-- `LibraryService.mark_library_unindexed`. -/
def markLibraryUnindexed (db : DB) (l : ℕ) : Bool × DB :=
  match getLibrary db l with
  | none => (false, db)
  | some lib =>
    if lib.indexStatus.indexed then
      (true, (updateLibrary db l
        { indexStatus := some
            { indexed := false
              indexerType := lib.indexStatus.indexerType
              lastIndexed := lib.indexStatus.lastIndexed
              indexingInProgress := false } }).2)
    else (true, db)

/-- `ChunkService.create_chunk`: `get_document(chunk.document_id)` is `None`
both for a missing parent and for `document_id = None`. -/
def serviceCreateChunk (db : DB) (c : ChunkRec) :
    Except String ChunkRec × DB :=
  match c.documentId.bind (getDocument db) with
  | none =>
    (.error ("Document with ID " ++ toString c.documentId ++ " does not exist"),
      db)
  | some doc =>
    match createChunk db c with
    | (.error e, db1) => (.error e, db1)
    | (.ok created, db1) =>
      (.ok created, (markLibraryUnindexed db1 doc.libraryId).2)

/-- `ChunkService.update_chunk`. -/
def serviceUpdateChunk (db : DB) (i : ℕ) (u : ChunkUpdate) :
    Except String (Option ChunkRec) × DB :=
  match getChunk db i with
  | none => (.ok none, db)
  | some c =>
    match c.documentId.bind (getDocument db) with
    | none => (.ok none, db)
    | some doc =>
      match updateChunk db i u with
      | (.error e, db1) => (.error e, db1)
      | (.ok r, db1) => (.ok r, (markLibraryUnindexed db1 doc.libraryId).2)

/-- `ChunkService.delete_chunk`. -/
def serviceDeleteChunk (db : DB) (i : ℕ) : Bool × DB :=
  match getChunk db i with
  | none => (false, db)
  | some c =>
    match c.documentId.bind (getDocument db) with
    | none => (false, db)
    | some doc =>
      let r := deleteChunk db i
      if r.1 then (r.1, (markLibraryUnindexed r.2 doc.libraryId).2) else r

/-! ## The lock discipline (`threading.Lock` in `app/database/db.py`)

The three store locks are plain non-reentrant `threading.Lock`s, and the
document and library write paths re-enter them: `create_document` holds
`document_lock` for its whole body while the nested `create_chunk` and the
closing `save_library` acquire it again; `delete_document` holds it while
`delete_chunks_by_document`'s first block does; `create_library` holds
`library_lock` while the nested `save_library` does.  A second acquisition of
a held non-reentrant lock blocks forever.  These operations are therefore
modelled against the set of locks held by the enclosing frames: `LRes.hang`
is the outcome of such a self-deadlock, paired with the store state already
reached — dict mutations made before the blocked acquisition stay visible to
other threads. -/

/-- Which of the three store locks the enclosing frames hold. -/
structure Locks where
  lib : Bool
  doc : Bool
  chk : Bool
deriving DecidableEq, Repr

/-- No lock held: the state in which every public entry point starts. -/
def Locks.free : Locks := ⟨false, false, false⟩

/-- Outcome of a store call: a returned value, a raised `ValueError`, or a
permanent block on a lock acquisition. -/
inductive LRes (α : Type) where
  | ok : α → LRes α
  | err : String → LRes α
  | hang : LRes α
deriving DecidableEq, Repr

/-- `save_library` as called from the CRUD paths: it only reads the store
(the written snapshot is verified separately), but it takes all three locks
in sequence — `library_lock` first; if the library is missing it returns
`False` from inside that first block, otherwise it goes on to take
`document_lock` and then `chunk_lock`.  File-system errors are caught and
also give `False`; the clean run gives `True`. -/
def saveLibraryL (db : DB) (l : ℕ) (ls : Locks) : LRes Bool :=
  if ls.lib then LRes.hang
  else if (alookup db.libraries l).isNone then LRes.ok false
  else if ls.doc then LRes.hang
  else if ls.chk then LRes.hang
  else LRes.ok true

/-- `create_chunk` under the lock discipline: the first block reads the
parent's library through `document_lock` (only when `document_id` is truthy),
the checks and the installation run under `chunk_lock`, and the final
`save_library` call runs with both released again. -/
def createChunkL (db : DB) (c : ChunkRec) (ls : Locks) : LRes ChunkRec × DB :=
  if c.documentId.isSome && ls.doc then (LRes.hang, db)
  else
    let libId : Option ℕ :=
      match c.documentId with
      | some did => alookup db.documentLibraryMap did
      | none => none
    if ls.chk then (LRes.hang, db)
    else if (alookup db.chunks c.id).isSome then
      (LRes.err ("Chunk with ID " ++ toString c.id ++ " already exists"), db)
    else
      match c.documentId with
      | some did =>
        if (alookup db.documents did).isNone then
          (LRes.err ("Document with ID " ++ toString did ++ " does not exist"),
            db)
        else
          let db1 := { db with
            chunks := astore db.chunks c.id c
            chunkDocumentMap := astore db.chunkDocumentMap c.id did }
          match libId with
          | some lid =>
            match saveLibraryL db1 lid ls with
            | LRes.hang => (LRes.hang, db1)
            | _ => (LRes.ok c, db1)
          | none => (LRes.ok c, db1)
      | none =>
        (LRes.ok c, { db with chunks := astore db.chunks c.id c })

/-- The `for chunk in document.chunks` loop of `create_document`: each
chunk's `document_id` is overwritten with the document's id and
`create_chunk` is called with `document_lock` still held; a `ValueError` is
re-raised with context. -/
def createChunksLoopL (db : DB) (did : ℕ) (cs : List ChunkRec) (ls : Locks) :
    LRes Unit × DB :=
  match cs with
  | [] => (LRes.ok (), db)
  | c :: rest =>
    match createChunkL db { c with documentId := some did } ls with
    | (LRes.ok _, db1) => createChunksLoopL db1 did rest ls
    | (LRes.err e, db1) => (LRes.err ("Error creating chunk: " ++ e), db1)
    | (LRes.hang, db1) => (LRes.hang, db1)

/-- `create_document` under the lock discipline: the checks, the
installation, the nested `create_chunk` calls and the closing `save_library`
all run inside `with db.document_lock`.  A valid create therefore never
returns — with nested chunks, `create_chunk`'s parent lookup re-acquires
`document_lock`; without them, `save_library` does (the library was just
checked to exist, so `save_library` gets past its first block).  The two
raising checks fire before any mutation. -/
def createDocumentL (db : DB) (doc : DocumentRec) (ls : Locks) :
    LRes DocumentRec × DB :=
  if ls.doc then (LRes.hang, db)
  else if (alookup db.documents doc.id).isSome then
    (LRes.err ("Document with ID " ++ toString doc.id ++ " already exists"), db)
  else if (alookup db.libraries doc.libraryId).isNone then
    (LRes.err ("Library with ID " ++ toString doc.libraryId ++ " does not exist"),
      db)
  else
    let db1 := { db with
      documents := astore db.documents doc.id doc
      documentLibraryMap := astore db.documentLibraryMap doc.id doc.libraryId }
    match createChunksLoopL db1 doc.id doc.chunks { ls with doc := true } with
    | (LRes.ok _, db2) =>
      match saveLibraryL db2 doc.libraryId { ls with doc := true } with
      | LRes.hang => (LRes.hang, db2)
      | _ => (LRes.ok doc, db2)
    | (LRes.err e, db2) => (LRes.err e, db2)
    | (LRes.hang, db2) => (LRes.hang, db2)

/-- The `for document in library.documents` loop of `create_library`, run
with `library_lock` held; a nested `ValueError` is re-raised with context. -/
def createDocsLoopL (db : DB) (ds : List DocumentRec) (ls : Locks) :
    LRes Unit × DB :=
  match ds with
  | [] => (LRes.ok (), db)
  | d :: rest =>
    match createDocumentL db d ls with
    | (LRes.ok _, db1) => createDocsLoopL db1 rest ls
    | (LRes.err e, db1) => (LRes.err ("Error creating document: " ++ e), db1)
    | (LRes.hang, db1) => (LRes.hang, db1)

/-- `create_library` under the lock discipline: the collision check, the
in-place overwrite of each nested document's `library_id`, the installation
of the library dict and the nested creations all run inside
`with db.library_lock`. -/
def createLibraryL (db : DB) (lib : LibraryRec) (ls : Locks) :
    LRes LibraryRec × DB :=
  if ls.lib then (LRes.hang, db)
  else if (alookup db.libraries lib.id).isSome then
    (LRes.err ("Library with ID " ++ toString lib.id ++ " already exists"), db)
  else
    let docs := lib.documents.map (fun dc => { dc with libraryId := lib.id })
    let lib1 := { lib with documents := docs }
    let db1 := { db with libraries := astore db.libraries lib.id lib1 }
    match createDocsLoopL db1 docs { ls with lib := true } with
    | (LRes.ok _, db2) => (LRes.ok lib1, db2)
    | (LRes.err e, db2) => (LRes.err e, db2)
    | (LRes.hang, db2) => (LRes.hang, db2)

/-- `delete_chunks_by_document` under the lock discipline: the first block
reads the document's library under `document_lock`; the deletions and —
crucially — the closing `save_library` run inside `with db.chunk_lock`. -/
def deleteChunksByDocumentL (db : DB) (did : ℕ) (ls : Locks) : LRes ℕ × DB :=
  if ls.doc then (LRes.hang, db)
  else
    let libId := alookup db.documentLibraryMap did
    if ls.chk then (LRes.hang, db)
    else
      let cids := (db.chunkDocumentMap.filter (fun p => p.2 == did)).map Prod.fst
      let db1 := cids.foldl
        (fun acc cid =>
          { acc with
            chunks := aerase acc.chunks cid
            chunkDocumentMap := aerase acc.chunkDocumentMap cid }) db
      match libId with
      | some lid =>
        if cids.isEmpty then (LRes.ok cids.length, db1)
        else
          match saveLibraryL db1 lid { ls with chk := true } with
          | LRes.hang => (LRes.hang, db1)
          | _ => (LRes.ok cids.length, db1)
      | none => (LRes.ok cids.length, db1)

/-- `delete_document` under the lock discipline: after the first block reads
the library id, the delete block holds `document_lock` and immediately calls
`delete_chunks_by_document`, whose own first block re-acquires it — for an
existing document the call hangs before any mutation. -/
def deleteDocumentL (db : DB) (i : ℕ) (ls : Locks) : LRes Bool × DB :=
  if ls.doc then (LRes.hang, db)
  else
    let libId := alookup db.documentLibraryMap i
    if (alookup db.documents i).isNone then (LRes.ok false, db)
    else
      match deleteChunksByDocumentL db i { ls with doc := true } with
      | (LRes.ok _, db1) =>
        let db2 := { db1 with
          documents := aerase db1.documents i
          documentLibraryMap :=
            if (alookup db1.documentLibraryMap i).isSome then
              aerase db1.documentLibraryMap i
            else db1.documentLibraryMap }
        match libId with
        | some lid =>
          match saveLibraryL db2 lid { ls with doc := true } with
          | LRes.hang => (LRes.hang, db2)
          | _ => (LRes.ok true, db2)
        | none => (LRes.ok true, db2)
      | (LRes.err e, db1) => (LRes.err e, db1)
      | (LRes.hang, db1) => (LRes.hang, db1)

/-- The deletion loop of `delete_documents_by_library`, run with
`document_lock` held. -/
def deleteDocsLoopL (db : DB) (ids : List ℕ) (ls : Locks) (count : ℕ) :
    LRes ℕ × DB :=
  match ids with
  | [] => (LRes.ok count, db)
  | i :: rest =>
    match deleteDocumentL db i ls with
    | (LRes.ok b, db1) =>
      deleteDocsLoopL db1 rest ls (if b then count + 1 else count)
    | (LRes.err e, db1) => (LRes.err e, db1)
    | (LRes.hang, db1) => (LRes.hang, db1)

/-- `delete_documents_by_library` under the lock discipline: it holds
`document_lock` across its whole loop while each `delete_document` call
re-acquires it. -/
def deleteDocumentsByLibraryL (db : DB) (l : ℕ) (ls : Locks) : LRes ℕ × DB :=
  if ls.doc then (LRes.hang, db)
  else
    let ids := (db.documentLibraryMap.filter (fun p => p.2 == l)).map Prod.fst
    deleteDocsLoopL db ids { ls with doc := true } 0

/-- `delete_library` under the lock discipline. -/
def deleteLibraryL (db : DB) (l : ℕ) (ls : Locks) : LRes Bool × DB :=
  if ls.lib then (LRes.hang, db)
  else if (alookup db.libraries l).isNone then (LRes.ok false, db)
  else
    match deleteDocumentsByLibraryL db l { ls with lib := true } with
    | (LRes.ok _, db1) =>
      (LRes.ok true, { db1 with libraries := aerase db1.libraries l })
    | (LRes.err e, db1) => (LRes.err e, db1)
    | (LRes.hang, db1) => (LRes.hang, db1)

/-- A JSON value for an id field.  The router's payloads carry ids as JSON
strings; a programmatic caller could pass a `UUID` object.  `str()` of either
is the same canonical form, but Python `!=` between a `str` and a `UUID` is
always true. -/
inductive IdVal where
  | uuidV : ℕ → IdVal
  | strV : ℕ → IdVal
deriving DecidableEq, Repr

/-- The id the value denotes (its `str()` form). -/
def IdVal.num : IdVal → ℕ
  | uuidV n => n
  | strV n => n

/-- Python `==` between the raw payload value and a stored `UUID`. -/
def IdVal.eqUUID : IdVal → ℕ → Bool
  | uuidV n, m => n == m
  | strV _, _ => false

/-- Partial data for a document update as delivered to the service layer:
`library_id`, when the key is present, is a raw `IdVal`; `chunksKey` records
the presence of a `chunks` key (its value is never read — both layers raise
on presence). -/
structure DocUpdateL where
  libraryId : Option IdVal := none
  chunksKey : Bool := false
  metadata : Option (List (String × String)) := none
deriving DecidableEq, Repr

/-- `update_document` under the lock discipline: the whole body holds
`document_lock`.  The `library_id` validation compares `str()` forms, so only
the denoted id matters there.  On the success path `save_library` is called
with `document_lock` still held: the call returns only when the document has
no relationship entry, or the mapped library is missing (then `save_library`
returns `False` from its first block without touching `document_lock`). -/
def updateDocumentL (db : DB) (i : ℕ) (u : DocUpdateL) (ls : Locks) :
    LRes (Option DocumentRec) × DB :=
  if ls.doc then (LRes.hang, db)
  else
    match alookup db.documents i with
    | none => (LRes.ok none, db)
    | some cur =>
      if (match u.libraryId with
          | some v => v.num != cur.libraryId
          | none => false) then
        (LRes.err "Cannot change library_id of an existing document", db)
      else if u.chunksKey then
        (LRes.err "Cannot update chunks through document update. Use chunk API instead.",
          db)
      else
        let upd := { cur with metadata := u.metadata.getD cur.metadata }
        let db1 := { db with documents := astore db.documents i upd }
        match alookup db1.documentLibraryMap i with
        | some lid =>
          match saveLibraryL db1 lid { ls with doc := true } with
          | LRes.hang => (LRes.hang, db1)
          | _ => (LRes.ok (some upd), db1)
        | none => (LRes.ok (some upd), db1)

/-- `DocumentService.create_document`: `created_doc.library_id` is a `UUID`
and hence always truthy, so a completed create is always followed by
`mark_library_unindexed`. -/
def serviceCreateDocumentL (db : DB) (doc : DocumentRec) :
    LRes DocumentRec × DB :=
  match createDocumentL db doc Locks.free with
  | (LRes.ok d, db1) => (LRes.ok d, (markLibraryUnindexed db1 d.libraryId).2)
  | (LRes.err e, db1) => (LRes.err e, db1)
  | (LRes.hang, db1) => (LRes.hang, db1)

/-- `DocumentService.update_document`: the guard under which
`mark_library_unindexed` runs compares the raw payload value with the stored
`UUID` WITHOUT `str()`, so it also fires for an unchanged id delivered as a
JSON string.  The second mark then uses the raw payload value as the dict
key: a string key misses the `UUID`-keyed `db.libraries` (a no-op), a `UUID`
key hits. -/
def serviceUpdateDocumentL (db : DB) (i : ℕ) (u : DocUpdateL) :
    LRes (Option DocumentRec) × DB :=
  if u.chunksKey then
    (LRes.err "Cannot update chunks through this method. Use update_document_chunks instead.",
      db)
  else
    match getDocument db i with
    | none => (LRes.ok none, db)
    | some doc =>
      match updateDocumentL db i u Locks.free with
      | (LRes.ok r, db1) =>
        match u.libraryId with
        | some v =>
          if !(v.eqUUID doc.libraryId) then
            let db2 := (markLibraryUnindexed db1 doc.libraryId).2
            let db3 :=
              match v with
              | IdVal.uuidV n => (markLibraryUnindexed db2 n).2
              | IdVal.strV _ => db2
            (LRes.ok r, db3)
          else (LRes.ok r, db1)
        | none => (LRes.ok r, db1)
      | (LRes.err e, db1) => (LRes.err e, db1)
      | (LRes.hang, db1) => (LRes.hang, db1)

/-- `DocumentService.delete_document`: the document is read first; the
unindex-marking runs only when the store delete returned `True`. -/
def serviceDeleteDocumentL (db : DB) (i : ℕ) : LRes Bool × DB :=
  let docO := getDocument db i
  match deleteDocumentL db i Locks.free with
  | (LRes.ok b, db1) =>
    match docO with
    | some doc =>
      if b then (LRes.ok b, (markLibraryUnindexed db1 doc.libraryId).2)
      else (LRes.ok b, db1)
    | none => (LRes.ok b, db1)
  | (LRes.err e, db1) => (LRes.err e, db1)
  | (LRes.hang, db1) => (LRes.hang, db1)

/-! ## `LibraryService.search_library` and the HTTP mapping
(`app/routers/v1/library.py`)

The service raises `ValueError`s whose message text the router inspects; the
decision to search is made before any call to the installed index, so the
refusal cases perform no index search and no result enrichment.  The gate is
a function of the stored library, plus whether `library_indexers` holds an
entry for the library. -/

/-- The error raised by `LibraryService.search_library` before the index
search, if any; `none` means the search proceeds. -/
def searchGate (db : DB) (l : ℕ) (indexerInstalled : Bool) : Option String :=
  match getLibrary db l with
  | none => some ("Library with ID " ++ toString l ++ " not found")
  | some lib =>
    if !lib.indexStatus.indexed then
      if lib.indexStatus.indexingInProgress then
        some "Library is currently being indexed. Please try again later."
      else
        some "Library is not indexed. Please index the library before searching."
    else if !indexerInstalled then
      some "No indexer found for library. Please re-index the library."
    else none

/-- Character-list test used to model Python's `in` on strings. -/
def beginsWith : List Char → List Char → Bool
  | [], _ => true
  | _ :: _, [] => false
  | a :: as, b :: bs => a == b && beginsWith as bs

/-- Substring test on character lists. -/
def hasSubChars (n : List Char) : List Char → Bool
  | [] => beginsWith n []
  | b :: bs => beginsWith n (b :: bs) || hasSubChars n bs

/-- `needle in hay` on strings. -/
def hasSub (hay needle : String) : Bool :=
  hasSubChars needle.data hay.data

/-- `str.lower()` (the messages involved are ASCII). -/
def lowerStr (s : String) : String :=
  String.mk (s.data.map Char.toLower)

/-- The `except ValueError` branch of the `search_library` route handler:
substring checks on the lowered message pick the HTTP status. -/
def routerSearchStatus (msg : String) : ℕ :=
  if hasSub (lowerStr msg) "not indexed" || hasSub (lowerStr msg) "being indexed" then
    409
  else if hasSub (lowerStr msg) "not found" then 404
  else 400

/-! ## `app/database/persistence.py`

A snapshot file is the JSON object `{library, documents[], chunks[]}`.  JSON
records are modelled with optional key fields: `none` means the key is absent
(the malformed case the loader skips).  Parent keys carrying JSON `null`
(which would make the Python loader abort with a `TypeError` from `UUID(None)`)
are outside the model — the saver never produces them.  File-system failures
are not modelled: `saveLibrary` returns the value that would be written, and
`loadFile` consumes such a value. -/

/-- A `library` JSON record. -/
structure RawLib where
  id : Option ℕ
  name : String
  documents : List DocumentRec
  metadata : List (String × String)
  indexStatus : IndexStatus
deriving DecidableEq, Repr

/-- A `documents[]` JSON record. -/
structure RawDoc where
  id : Option ℕ
  libraryId : Option ℕ
  chunks : List ChunkRec
  metadata : List (String × String)
deriving DecidableEq, Repr

/-- A `chunks[]` JSON record; `embedding = none` models an absent key. -/
structure RawChunk where
  id : Option ℕ
  documentId : Option ℕ
  text : String
  embedding : Option (List Int)
  metadata : List (String × String)
deriving DecidableEq, Repr

/-- The file contents `{library, documents, chunks}`. -/
structure SnapshotFile where
  library : Option RawLib
  documents : List RawDoc
  chunks : List RawChunk
deriving DecidableEq, Repr

/-- Serialization of a stored library record (a plain dict copy). -/
def serLib (l : LibraryRec) : RawLib :=
  ⟨some l.id, l.name, l.documents, l.metadata, l.indexStatus⟩

/-- Serialization of a stored document record (a plain dict copy). -/
def serDoc (dc : DocumentRec) : RawDoc :=
  ⟨some dc.id, some dc.libraryId, dc.chunks, dc.metadata⟩

/-- Serialization of a stored chunk record with `del chunk_copy["embedding"]`. -/
def serChunk (c : ChunkRec) : RawChunk :=
  ⟨some c.id, c.documentId, c.text, none, c.metadata⟩

/-- `save_library`: the library record, the documents found through
`document_library_map`, and for each such document its chunks found through
`chunk_document_map`, with embeddings stripped. -/
def saveLibrary (db : DB) (l : ℕ) : Option SnapshotFile :=
  match alookup db.libraries l with
  | none => none
  | some lib =>
    let docIds := (db.documentLibraryMap.filter
      (fun p => p.2 == l && (alookup db.documents p.1).isSome)).map Prod.fst
    let docs := docIds.filterMap (fun i => (alookup db.documents i).map serDoc)
    let chunkIdsOf := fun di => (db.chunkDocumentMap.filter
      (fun p => p.2 == di && (alookup db.chunks p.1).isSome)).map Prod.fst
    let chunks := docIds.foldr
      (fun di acc =>
        ((chunkIdsOf di).filterMap (fun ci => (alookup db.chunks ci).map serChunk))
          ++ acc) []
    some ⟨some (serLib lib), docs, chunks⟩

/-- Document install step of the loader (well-formed records only). -/
def loadDocStep (acc : DB) (rd : RawDoc) : DB :=
  match rd.id, rd.libraryId with
  | some di, some li =>
    { acc with
      documents := astore acc.documents di ⟨di, li, rd.chunks, rd.metadata⟩
      documentLibraryMap := astore acc.documentLibraryMap di li }
  | _, _ => acc

/-- Chunk install step of the loader: the `embedding` key is removed before
the record is stored. -/
def loadChunkStep (acc : DB) (rc : RawChunk) : DB :=
  match rc.id, rc.documentId with
  | some ci, some di =>
    { acc with
      chunks := astore acc.chunks ci ⟨ci, some di, rc.text, none, rc.metadata⟩
      chunkDocumentMap := astore acc.chunkDocumentMap ci di }
  | _, _ => acc

/-- `load_library_from_file`: install the library first, then every document
record that has both `id` and `library_id` keys, then every chunk record that
has both `id` and `document_id` keys; records missing a key are skipped with a
warning.  No cross-checks against the file's library are made. -/
def loadFile (db : DB) (f : SnapshotFile) : Bool × DB :=
  match f.library with
  | none => (false, db)
  | some rawl =>
    match rawl.id with
    | none => (false, db)
    | some lid =>
      let newlib : LibraryRec :=
        ⟨lid, rawl.name, rawl.documents, rawl.metadata, rawl.indexStatus⟩
      let db1 := { db with libraries := astore db.libraries lid newlib }
      let db2 := f.documents.foldl loadDocStep db1
      let db3 := f.chunks.foldl loadChunkStep db2
      (true, db3)

/-! ## Claim C7 — parent references are immutable -/

/-- C7: for every existing document and chunk, an update whose partial data
carries a parent-reference field (`library_id` / `document_id`) differing from
the stored value fails with the validation error, and the store — in
particular the entity — is unchanged by the failed update. -/
theorem parent_ref_immutable :
    (∀ (db : DB) (i : ℕ) (u : DocUpdate) (doc : DocumentRec) (newL : ℕ),
      alookup db.documents i = some doc →
      u.libraryId = some newL → newL ≠ doc.libraryId →
      updateDocument db i u =
        (Except.error "Cannot change library_id of an existing document", db)) ∧
    (∀ (db : DB) (i : ℕ) (u : ChunkUpdate) (c : ChunkRec) (newD : Option ℕ),
      alookup db.chunks i = some c →
      u.documentId = some newD → newD ≠ c.documentId →
      updateChunk db i u =
        (Except.error "Cannot change document_id of an existing chunk", db)) := by
  constructor
  · intro db i u doc newL hdoc hu hne
    simp only [updateDocument, hdoc, hu]
    rw [if_pos (by simp [hne])]
  · intro db i u c newD hc hu hne
    simp only [updateChunk, hc, hu]
    rw [if_pos hne]

/-- Record used by concrete store states below. -/
def docA : DocumentRec := ⟨2, 1, [], []⟩

/-- Record used by concrete store states below. -/
def libA : LibraryRec := ⟨1, "lib", [], [], IndexStatus.init⟩

/-- Witness for `parent_ref_immutable` at a concrete store. -/
theorem parent_ref_immutable_witness :
    (alookup (DB.mk [] [(2, docA)] [] [] []).documents 2 = some docA ∧
      (some 9 : Option ℕ) = some 9 ∧ 9 ≠ docA.libraryId) ∧
    updateDocument (DB.mk [] [(2, docA)] [] [] []) 2 { libraryId := some 9 } =
      (Except.error "Cannot change library_id of an existing document",
        DB.mk [] [(2, docA)] [] [] []) :=
  ⟨⟨rfl, rfl, by decide⟩,
    parent_ref_immutable.1 _ 2 _ docA 9 rfl rfl (by decide)⟩

/-! ## Claim C9 — chunk creation at the store layer

`create_chunk` acquires `document_lock`, `chunk_lock` and (inside
`save_library`) all three locks strictly in sequence, so from the free lock
state it always completes.  It only rejects a *present but dangling*
`document_id`: a chunk with `document_id = None` passes both guards and is
installed without a relationship entry.  The claim that an absent parent
reference is also rejected fails on the code. -/

theorem locksFree_lib : Locks.free.lib = false := rfl

theorem locksFree_doc : Locks.free.doc = false := rfl

theorem locksFree_chk : Locks.free.chk = false := rfl

/-- A standalone `save_library` call (no lock held) never blocks: its three
acquisitions are sequential. -/
theorem saveLibraryL_free_ne_hang (db : DB) (l : ℕ) :
    saveLibraryL db l Locks.free ≠ LRes.hang := by
  unfold saveLibraryL
  simp only [locksFree_lib, locksFree_doc, locksFree_chk, Bool.false_eq_true,
    if_false]
  split <;> simp

/-- C9 counterexample: from the free lock state, creating a chunk whose
`document_id` is `none` on an empty store completes with the chunk installed
and no relationship entry added — rather than failing with a validation
error. -/
theorem createChunk_none_parent_counterexample :
    (createChunkL DB.empty ⟨5, none, "t", none, []⟩ Locks.free).1 =
        LRes.ok ⟨5, none, "t", none, []⟩ ∧
    alookup (createChunkL DB.empty ⟨5, none, "t", none, []⟩ Locks.free).2.chunks 5 =
        some ⟨5, none, "t", none, []⟩ ∧
    (createChunkL DB.empty ⟨5, none, "t", none, []⟩ Locks.free).2.chunkDocumentMap = [] :=
  ⟨rfl, rfl, rfl⟩

/-- C9 amended: a store-layer chunk create, run from the free lock state,
always completes (never self-deadlocks) and fails iff the chunk id collides
or `document_id` is present but refers to no stored document — in the failing
cases nothing is installed and the store is unchanged.  A chunk with
`document_id = none` is installed with no relationship entry; a chunk with an
existing parent is installed together with its relationship entry. -/
theorem createChunk_cases :
    ∀ (db : DB) (c : ChunkRec),
      ((alookup db.chunks c.id).isSome →
        createChunkL db c Locks.free =
          (LRes.err ("Chunk with ID " ++ toString c.id ++ " already exists"),
            db)) ∧
      (∀ did, alookup db.chunks c.id = none → c.documentId = some did →
        alookup db.documents did = none →
        createChunkL db c Locks.free =
          (LRes.err ("Document with ID " ++ toString did ++ " does not exist"),
            db)) ∧
      (alookup db.chunks c.id = none → c.documentId = none →
        createChunkL db c Locks.free =
          (LRes.ok c, { db with chunks := astore db.chunks c.id c })) ∧
      (∀ did doc, alookup db.chunks c.id = none → c.documentId = some did →
        alookup db.documents did = some doc →
        createChunkL db c Locks.free = (LRes.ok c, { db with
          chunks := astore db.chunks c.id c
          chunkDocumentMap := astore db.chunkDocumentMap c.id did })) := by
  intro db c
  refine ⟨?_, ?_, ?_, ?_⟩
  · intro h
    simp [createChunkL, locksFree_doc, locksFree_chk, h]
  · intro did h hdid hmiss
    simp [createChunkL, locksFree_doc, locksFree_chk, h, hdid, hmiss]
  · intro h hdid
    simp [createChunkL, locksFree_doc, locksFree_chk, h, hdid]
  · intro did doc h hdid hdoc
    cases hlid : alookup db.documentLibraryMap did with
    | none =>
      simp [createChunkL, locksFree_doc, locksFree_chk, h, hdid, hdoc, hlid]
    | some lid =>
      cases hsv : saveLibraryL
          { db with
            chunks := astore db.chunks c.id c
            chunkDocumentMap := astore db.chunkDocumentMap c.id did }
          lid Locks.free with
      | ok b =>
        simp [createChunkL, locksFree_doc, locksFree_chk, h, hdid, hdoc, hlid,
          hsv]
      | err e =>
        simp [createChunkL, locksFree_doc, locksFree_chk, h, hdid, hdoc, hlid,
          hsv]
      | hang => exact absurd hsv (saveLibraryL_free_ne_hang _ _)

/-- Witness for `createChunk_cases` at a concrete input. -/
theorem createChunk_cases_witness :
    (alookup DB.empty.chunks 5 = none ∧
      (⟨5, none, "t", none, []⟩ : ChunkRec).documentId = none) ∧
    createChunkL DB.empty ⟨5, none, "t", none, []⟩ Locks.free =
      (LRes.ok ⟨5, none, "t", none, []⟩,
        { DB.empty with chunks := astore DB.empty.chunks 5 ⟨5, none, "t", none, []⟩ }) :=
  ⟨⟨rfl, rfl⟩, (createChunk_cases DB.empty ⟨5, none, "t", none, []⟩).2.2.1 rfl rfl⟩

/-! ## Claim C10 — nested library creation is not atomic

`create_library` installs the library dict before creating its documents, so
it is indeed not atomic — but the error-propagation scenario of the claim is
only reachable when the FIRST nested document collides with a pre-existing
id.  A valid first document never raises and never returns: `create_document`
runs under the `library_lock` held by `create_library`, and either the nested
`create_chunk` re-acquires the held `document_lock` or the closing
`save_library` re-acquires the held `library_lock`. -/

/-- Library with two nested documents sharing an id: under the claim's
reading the second create would fail with a duplicate-id error. -/
def libW10 : LibraryRec :=
  ⟨1, "l", [⟨2, 0, [], []⟩, ⟨2, 0, [], []⟩], [], IndexStatus.init⟩

/-- With `library_lock` held by the caller, a `create_document` that passes
its checks always hangs — after installing the document and its relationship
entry but none of its chunks. -/
theorem createDocumentL_libHeld_valid (db : DB) (d : DocumentRec)
    (hcol : alookup db.documents d.id = none)
    (hlib : (alookup db.libraries d.libraryId).isSome) :
    createDocumentL db d ⟨true, false, false⟩ =
      (LRes.hang, { db with
        documents := astore db.documents d.id d
        documentLibraryMap := astore db.documentLibraryMap d.id d.libraryId }) := by
  obtain ⟨lb, hlb⟩ := Option.isSome_iff_exists.mp hlib
  cases hch : d.chunks with
  | nil =>
    simp [createDocumentL, createChunksLoopL, saveLibraryL, hcol, hlb, hch]
  | cons c rest =>
    simp [createDocumentL, createChunksLoopL, createChunkL, hcol, hlb, hch]

/-- C10 counterexample: a library with two nested documents sharing an id —
the scenario in which the claimed duplicate-id error would propagate — never
returns: the first (valid) document is created under the held `library_lock`
and its closing `save_library` re-acquires that lock.  At the hang the
library record and the first document with its relationship entry are
installed; the error is never raised. -/
theorem createLibrary_hangs_counterexample :
    (createLibraryL DB.empty libW10 Locks.free).1 = LRes.hang ∧
    alookup (createLibraryL DB.empty libW10 Locks.free).2.libraries 1 =
      some ⟨1, "l", [⟨2, 1, [], []⟩, ⟨2, 1, [], []⟩], [], IndexStatus.init⟩ ∧
    alookup (createLibraryL DB.empty libW10 Locks.free).2.documents 2 =
      some ⟨2, 1, [], []⟩ ∧
    alookup (createLibraryL DB.empty libW10 Locks.free).2.documentLibraryMap 2 =
      some 1 :=
  ⟨rfl, rfl, rfl, rfl⟩

/-- C10 amended: `create_library` installs the library record before its
documents, and it is not atomic, but the claimed error propagation only
happens for a colliding FIRST document: (1) a colliding library id raises
with the store unchanged; (2) an empty nested document list succeeds with
just the library installed; (3) when the first nested document's id already
exists in the store, the wrapped duplicate-id error propagates and the
library remains installed; (4) when the first nested document is valid, the
call hangs — leaving the library, that document and its relationship entry
installed — and an error about any later document is never raised. -/
theorem createLibrary_cases :
    ∀ (db : DB) (lib : LibraryRec),
      ((alookup db.libraries lib.id).isSome →
        createLibraryL db lib Locks.free =
          (LRes.err ("Library with ID " ++ toString lib.id ++ " already exists"),
            db)) ∧
      (alookup db.libraries lib.id = none → lib.documents = [] →
        createLibraryL db lib Locks.free =
          (LRes.ok { lib with documents := [] },
            { db with libraries :=
                astore db.libraries lib.id { lib with documents := [] } })) ∧
      (∀ d ds, alookup db.libraries lib.id = none → lib.documents = d :: ds →
        (alookup db.documents d.id).isSome →
        createLibraryL db lib Locks.free =
          (LRes.err ("Error creating document: " ++
              ("Document with ID " ++ toString d.id ++ " already exists")),
            { db with libraries := (astore db.libraries lib.id
                { lib with documents :=
                    lib.documents.map (fun dc => { dc with libraryId := lib.id }) }) })) ∧
      (∀ d ds, alookup db.libraries lib.id = none → lib.documents = d :: ds →
        alookup db.documents d.id = none →
        createLibraryL db lib Locks.free =
          (LRes.hang,
            { db with
              libraries := (astore db.libraries lib.id
                { lib with documents :=
                    lib.documents.map (fun dc => { dc with libraryId := lib.id }) })
              documents := astore db.documents d.id { d with libraryId := lib.id }
              documentLibraryMap :=
                astore db.documentLibraryMap d.id lib.id })) := by
  intro db lib
  refine ⟨?_, ?_, ?_, ?_⟩
  · intro h
    simp [createLibraryL, locksFree_lib, h]
  · intro hno hnil
    simp [createLibraryL, createDocsLoopL, locksFree_lib, hno, hnil]
  · intro d ds hno hdocs hcol
    obtain ⟨dd, hdd⟩ := Option.isSome_iff_exists.mp hcol
    simp [createLibraryL, createDocsLoopL, createDocumentL, locksFree_lib,
      locksFree_doc, hno, hdocs, hdd]
  · intro d ds hno hdocs hcol
    have hstep := createDocumentL_libHeld_valid
      { db with libraries := (astore db.libraries lib.id
          { lib with documents :=
              lib.documents.map (fun dc => { dc with libraryId := lib.id }) }) }
      { d with libraryId := lib.id }
      (by dsimp only; exact hcol)
      (by dsimp only; rw [alookup_astore, if_pos rfl]; rfl)
    simp only [hdocs, List.map_cons] at hstep
    simp [createLibraryL, createDocsLoopL, locksFree_lib, locksFree_doc,
      locksFree_chk, hno, hdocs, hstep]

/-- Witness for `createLibrary_cases`: the two-document store of the
counterexample satisfies the valid-first-document case. -/
theorem createLibrary_cases_witness :
    (alookup DB.empty.libraries libW10.id = none ∧
      libW10.documents = ⟨2, 0, [], []⟩ :: [⟨2, 0, [], []⟩] ∧
      alookup DB.empty.documents 2 = none) ∧
    createLibraryL DB.empty libW10 Locks.free =
      (LRes.hang,
        { DB.empty with
          libraries := (astore DB.empty.libraries libW10.id
            { libW10 with documents :=
                libW10.documents.map (fun dc => { dc with libraryId := libW10.id }) })
          documents := (astore DB.empty.documents 2
            { (⟨2, 0, [], []⟩ : DocumentRec) with libraryId := libW10.id })
          documentLibraryMap :=
            astore DB.empty.documentLibraryMap 2 libW10.id }) :=
  ⟨⟨rfl, rfl, rfl⟩,
    (createLibrary_cases DB.empty libW10).2.2.2 ⟨2, 0, [], []⟩ [⟨2, 0, [], []⟩]
      rfl rfl rfl⟩

/-! ## Claim C8 — search refusal and its HTTP status

`LibraryService.search_library` checks `indexed` first: the conflict message
is only raised when the library is *not indexed and* a build is in progress,
and the missing-indexer message contains neither "not indexed" nor
"being indexed" nor "not found", so the route handler maps it to 400, not
409.  A library whose status says both `indexed` and `indexing_in_progress`
is searched without any refusal. -/

/-- A library marked indexed, with no indexer installed. -/
def libIndexedA : LibraryRec := ⟨1, "l", [], [], ⟨true, some .ballTree, some 3, false⟩⟩

/-- A library marked indexed while `indexing_in_progress` is also set. -/
def libBusyIndexedA : LibraryRec := ⟨1, "l", [], [], ⟨true, some .ballTree, some 3, true⟩⟩

/-- C8 counterexample: (a) with the library indexed but no indexer installed
the service raises the missing-indexer error and the route handler returns
400, not the claimed 409; (b) with `indexing_in_progress = true` but
`indexed = true` and an indexer installed, the search proceeds instead of
failing with a conflict. -/
theorem search_status_counterexample :
    searchGate (DB.mk [(1, libIndexedA)] [] [] [] []) 1 false =
      some "No indexer found for library. Please re-index the library." ∧
    routerSearchStatus "No indexer found for library. Please re-index the library." = 400 ∧
    searchGate (DB.mk [(1, libBusyIndexedA)] [] [] [] []) 1 true = none := by
  refine ⟨rfl, ?_, rfl⟩
  decide

/-- C8 amended: search is refused before touching the index exactly when the
library is missing (404), not indexed (409: conflict message when a build is
in progress, precondition message otherwise), or indexed with no installed
indexer (400).  When the status says indexed and an indexer is installed the
search proceeds — the `indexing_in_progress` flag alone does not block it. -/
theorem search_gate_cases :
    ∀ (db : DB) (l : ℕ) (installed : Bool),
      (getLibrary db l = none →
        searchGate db l installed =
          some ("Library with ID " ++ toString l ++ " not found")) ∧
      (∀ lib, getLibrary db l = some lib →
        lib.indexStatus.indexed = false →
        lib.indexStatus.indexingInProgress = true →
        searchGate db l installed =
          some "Library is currently being indexed. Please try again later." ∧
        routerSearchStatus "Library is currently being indexed. Please try again later." = 409) ∧
      (∀ lib, getLibrary db l = some lib →
        lib.indexStatus.indexed = false →
        lib.indexStatus.indexingInProgress = false →
        searchGate db l installed =
          some "Library is not indexed. Please index the library before searching." ∧
        routerSearchStatus "Library is not indexed. Please index the library before searching." = 409) ∧
      (∀ lib, getLibrary db l = some lib →
        lib.indexStatus.indexed = true → installed = false →
        searchGate db l installed =
          some "No indexer found for library. Please re-index the library." ∧
        routerSearchStatus "No indexer found for library. Please re-index the library." = 400) ∧
      (∀ lib, getLibrary db l = some lib →
        lib.indexStatus.indexed = true → installed = true →
        searchGate db l installed = none) := by
  intro db l installed
  refine ⟨?_, ?_, ?_, ?_, ?_⟩
  · intro h
    simp [searchGate, h]
  · intro lib h h1 h2
    exact ⟨by simp [searchGate, h, h1, h2], by decide⟩
  · intro lib h h1 h2
    exact ⟨by simp [searchGate, h, h1, h2], by decide⟩
  · intro lib h h1 h2
    exact ⟨by simp [searchGate, h, h1, h2], by decide⟩
  · intro lib h h1 h2
    simp [searchGate, h, h1, h2]

/-- Witness for `search_gate_cases` at a concrete store. -/
theorem search_gate_cases_witness :
    (getLibrary (DB.mk [(1, libIndexedA)] [] [] [] []) 1 = some libIndexedA ∧
      libIndexedA.indexStatus.indexed = true ∧ (false : Bool) = false) ∧
    (searchGate (DB.mk [(1, libIndexedA)] [] [] [] []) 1 false =
        some "No indexer found for library. Please re-index the library." ∧
      routerSearchStatus "No indexer found for library. Please re-index the library." = 400) :=
  ⟨⟨rfl, rfl, rfl⟩, (search_gate_cases _ 1 false).2.2.2.1 libIndexedA rfl rfl rfl⟩

/-! ## Claim C2 — which writes mark the library unindexed

Chunk create/update/delete through the service layer complete (their lock
acquisitions are sequential) and finish with `mark_library_unindexed`.  The
document write paths self-deadlock instead of invalidating: a valid create
and any delete of an existing document hang before reaching the marking, and
an update of a document that has a relationship entry onto an existing
library hangs inside the store's closing `save_library`.  An update only
completes on a document without such an entry (or whose mapped library is
missing); a metadata-only update then leaves the stored libraries — and an
`indexed = true` flag — untouched, while an unchanged `library_id` delivered
as a JSON string fires the service guard (raw `str != UUID` comparison) and
does mark the library unindexed. -/

/-- A store with an indexed library and a document that has no doc→lib
relationship entry, so the store-level update completes (`save_library` is
skipped by its truthiness test). -/
def dbOrphanDoc : DB := ⟨[(1, libIndexedA)], [(2, docA)], [], [], []⟩

/-- C2 counterexample: a metadata-only document update through
`DocumentService.update_document` that completes returns `ok` and leaves the
library's `indexed` flag `true` — no invalidation happens. -/
theorem doc_update_keeps_indexed_counterexample :
    (getLibrary dbOrphanDoc 1).map (fun l => l.indexStatus.indexed) = some true ∧
    (serviceUpdateDocumentL dbOrphanDoc 2 { metadata := some [("k", "v")] }).1 =
      LRes.ok (some ⟨2, 1, [], [("k", "v")]⟩) ∧
    (getLibrary (serviceUpdateDocumentL dbOrphanDoc 2
        { metadata := some [("k", "v")] }).2 1).map
      (fun l => l.indexStatus.indexed) = some true :=
  ⟨rfl, rfl, rfl⟩

theorem markUnindexed_ensures (db : DB) (l : ℕ) :
    ∀ lib, alookup (markLibraryUnindexed db l).2.libraries l = some lib →
      lib.indexStatus.indexed = false := by
  intro lib h
  unfold markLibraryUnindexed getLibrary at h
  cases h0 : alookup db.libraries l with
  | none =>
    rw [h0] at h
    dsimp only at h
    rw [h0] at h
    cases h
  | some lib0 =>
    rw [h0] at h
    dsimp only at h
    by_cases hι : lib0.indexStatus.indexed
    · rw [if_pos hι] at h
      unfold updateLibrary at h
      rw [h0] at h
      simp only [Option.isSome_none, Bool.false_eq_true, if_false] at h
      rw [alookup_astore, if_pos rfl] at h
      cases h
      rfl
    · rw [if_neg hι] at h
      rw [h0] at h
      cases h
      simpa using hι

/-- C2 amended: chunk creation, update and deletion through the service layer
leave the parent library (when it exists afterwards) with `indexed = false`.
The document operations do not behave as claimed: a valid document create and
the delete of an existing document hang (self-deadlock) before any
`mark_library_unindexed`, with the stored libraries untouched at the hang; a
metadata-only update either hangs (document mapped to an existing library) or
completes without touching the libraries, leaving `indexed = true` intact.
The unindex-marking guard of the document update IS reachable — an unchanged
`library_id` delivered as a JSON string passes the store's `str()` comparison
yet fires the guard's raw comparison and marks the library unindexed. -/
theorem service_write_invalidation :
    (∀ db c r db', serviceCreateChunk db c = (Except.ok r, db') →
      ∀ doc, c.documentId.bind (getDocument db) = some doc →
      ∀ lib, getLibrary db' doc.libraryId = some lib →
        lib.indexStatus.indexed = false) ∧
    (∀ db i u r db', serviceUpdateChunk db i u = (Except.ok r, db') →
      ∀ c, getChunk db i = some c →
      ∀ doc, c.documentId.bind (getDocument db) = some doc →
      ∀ lib, getLibrary db' doc.libraryId = some lib →
        lib.indexStatus.indexed = false) ∧
    (∀ db i db', serviceDeleteChunk db i = (true, db') →
      ∀ c, getChunk db i = some c →
      ∀ doc, c.documentId.bind (getDocument db) = some doc →
      ∀ lib, getLibrary db' doc.libraryId = some lib →
        lib.indexStatus.indexed = false) ∧
    (∀ db doc, alookup db.documents doc.id = none →
      (alookup db.libraries doc.libraryId).isSome →
      (serviceCreateDocumentL db doc).1 = LRes.hang ∧
      (serviceCreateDocumentL db doc).2.libraries = db.libraries) ∧
    (∀ db i, (alookup db.documents i).isSome →
      serviceDeleteDocumentL db i = (LRes.hang, db)) ∧
    (∀ db i u doc lid, u.libraryId = none → u.chunksKey = false →
      alookup db.documents i = some doc →
      alookup db.documentLibraryMap i = some lid →
      (alookup db.libraries lid).isSome →
      (serviceUpdateDocumentL db i u).1 = LRes.hang ∧
      (serviceUpdateDocumentL db i u).2.libraries = db.libraries) ∧
    (∀ db i u doc, u.libraryId = none → u.chunksKey = false →
      alookup db.documents i = some doc →
      alookup db.documentLibraryMap i = none →
      serviceUpdateDocumentL db i u =
        (LRes.ok (some { doc with metadata := u.metadata.getD doc.metadata }),
          { db with documents := (astore db.documents i
              { doc with metadata := u.metadata.getD doc.metadata }) })) ∧
    (∀ db i u doc, u.libraryId = some (IdVal.strV doc.libraryId) →
      u.chunksKey = false →
      alookup db.documents i = some doc →
      alookup db.documentLibraryMap i = none →
      (serviceUpdateDocumentL db i u).1 =
        LRes.ok (some { doc with metadata := u.metadata.getD doc.metadata }) ∧
      ∀ lib, getLibrary (serviceUpdateDocumentL db i u).2 doc.libraryId =
          some lib →
        lib.indexStatus.indexed = false) := by
  refine ⟨?_, ?_, ?_, ?_, ?_, ?_, ?_, ?_⟩
  · intro db c r db' h doc hdoc lib hlib
    unfold serviceCreateChunk at h
    rw [hdoc] at h
    dsimp only at h
    cases hcc : createChunk db c with
    | mk rc db1 =>
      rw [hcc] at h
      cases rc with
      | error e => simp at h
      | ok created =>
        simp only [Prod.mk.injEq] at h
        rw [← h.2] at hlib
        exact markUnindexed_ensures _ _ lib hlib
  · intro db i u r db' h c hc doc hdoc lib hlib
    unfold serviceUpdateChunk at h
    rw [hc] at h
    dsimp only at h
    rw [hdoc] at h
    dsimp only at h
    cases hcc : updateChunk db i u with
    | mk rc db1 =>
      rw [hcc] at h
      cases rc with
      | error e => simp at h
      | ok rr =>
        simp only [Prod.mk.injEq] at h
        rw [← h.2] at hlib
        exact markUnindexed_ensures _ _ lib hlib
  · intro db i db' h c hc doc hdoc lib hlib
    unfold serviceDeleteChunk at h
    rw [hc] at h
    dsimp only at h
    rw [hdoc] at h
    dsimp only at h
    by_cases hr : (deleteChunk db i).1 = true
    · rw [if_pos hr] at h
      simp only [Prod.mk.injEq] at h
      rw [← h.2] at hlib
      exact markUnindexed_ensures _ _ lib hlib
    · rw [if_neg hr] at h
      rw [Prod.ext_iff] at h
      exact absurd h.1 hr
  · intro db doc hcol hlib
    obtain ⟨lb, hlb⟩ := Option.isSome_iff_exists.mp hlib
    have hcreate : createDocumentL db doc Locks.free =
        (LRes.hang, { db with
          documents := astore db.documents doc.id doc
          documentLibraryMap := astore db.documentLibraryMap doc.id doc.libraryId }) := by
      cases hch : doc.chunks with
      | nil =>
        simp [createDocumentL, createChunksLoopL, saveLibraryL, locksFree_lib,
          locksFree_doc, locksFree_chk, hcol, hlb, hch]
      | cons c rest =>
        simp [createDocumentL, createChunksLoopL, createChunkL, locksFree_lib,
          locksFree_doc, locksFree_chk, hcol, hlb, hch]
    constructor
    · unfold serviceCreateDocumentL
      rw [hcreate]
    · unfold serviceCreateDocumentL
      rw [hcreate]
  · intro db i hs
    obtain ⟨dv, hdv⟩ := Option.isSome_iff_exists.mp hs
    have hdel : deleteDocumentL db i Locks.free = (LRes.hang, db) := by
      simp [deleteDocumentL, deleteChunksByDocumentL, locksFree_doc, hdv]
    unfold serviceDeleteDocumentL
    rw [hdel]
  · intro db i u doc lid hul huc hdoc hmap hlib
    obtain ⟨lb, hlb⟩ := Option.isSome_iff_exists.mp hlib
    have hupd : updateDocumentL db i u Locks.free =
        (LRes.hang, { db with documents := (astore db.documents i
            { doc with metadata := u.metadata.getD doc.metadata }) }) := by
      simp [updateDocumentL, saveLibraryL, locksFree_lib, locksFree_doc,
        locksFree_chk, hdoc, hul, huc, hmap, hlb]
    have hserv : serviceUpdateDocumentL db i u =
        (LRes.hang, { db with documents := (astore db.documents i
            { doc with metadata := u.metadata.getD doc.metadata }) }) := by
      unfold serviceUpdateDocumentL
      rw [huc]
      simp only [Bool.false_eq_true, if_false, getDocument, hdoc]
      rw [hupd]
    rw [hserv]
    exact ⟨rfl, rfl⟩
  · intro db i u doc hul huc hdoc hmap
    have hupd : updateDocumentL db i u Locks.free =
        (LRes.ok (some { doc with metadata := u.metadata.getD doc.metadata }),
          { db with documents := (astore db.documents i
              { doc with metadata := u.metadata.getD doc.metadata }) }) := by
      simp [updateDocumentL, locksFree_doc, hdoc, hul, huc, hmap]
    unfold serviceUpdateDocumentL
    rw [huc]
    simp only [Bool.false_eq_true, if_false, getDocument, hdoc]
    rw [hupd, hul]
  · intro db i u doc hul huc hdoc hmap
    have hupd : updateDocumentL db i u Locks.free =
        (LRes.ok (some { doc with metadata := u.metadata.getD doc.metadata }),
          { db with documents := (astore db.documents i
              { doc with metadata := u.metadata.getD doc.metadata }) }) := by
      simp [updateDocumentL, locksFree_doc, hdoc, hul, huc, hmap, IdVal.num]
    have hserv : serviceUpdateDocumentL db i u =
        (LRes.ok (some { doc with metadata := u.metadata.getD doc.metadata }),
          (markLibraryUnindexed
            { db with documents := (astore db.documents i
                { doc with metadata := u.metadata.getD doc.metadata }) }
            doc.libraryId).2) := by
      unfold serviceUpdateDocumentL
      rw [huc]
      simp only [Bool.false_eq_true, if_false, getDocument, hdoc]
      rw [hupd, hul]
      simp [IdVal.eqUUID]
    constructor
    · rw [hserv]
    · intro lib hlib
      rw [hserv] at hlib
      exact markUnindexed_ensures _ _ lib hlib

/-- Witness for `service_write_invalidation` at the concrete store of the
counterexample (completing metadata-only update case). -/
theorem service_write_invalidation_witness :
    (({ metadata := some [("k", "v")] } : DocUpdateL).libraryId = none ∧
     ({ metadata := some [("k", "v")] } : DocUpdateL).chunksKey = false ∧
     alookup dbOrphanDoc.documents 2 = some docA ∧
     alookup dbOrphanDoc.documentLibraryMap 2 = none) ∧
    serviceUpdateDocumentL dbOrphanDoc 2 { metadata := some [("k", "v")] } =
      (LRes.ok (some ⟨2, 1, [], [("k", "v")]⟩),
        { dbOrphanDoc with documents :=
            (astore dbOrphanDoc.documents 2 ⟨2, 1, [], [("k", "v")]⟩) }) :=
  ⟨⟨rfl, rfl, rfl, rfl⟩,
    service_write_invalidation.2.2.2.2.2.2.1 dbOrphanDoc 2
      { metadata := some [("k", "v")] } docA rfl rfl rfl rfl⟩

/-! ## Claim C5 — cascade delete of a library

The cascade can never run: `delete_documents_by_library` holds
`document_lock` across its loop while each `delete_document` call's first
block re-acquires that same non-reentrant lock.  `delete_library` therefore
hangs — with the store unchanged, since the block happens before any
deletion — whenever at least one relationship entry maps a document to the
library; it only returns `True` when there is nothing to cascade, having
removed just the library record. -/

/-- Chunk record used by the concrete cascade-delete store. -/
def chunkA : ChunkRec := ⟨5, some 2, "t", none, []⟩

/-- Concrete in-sync store: library 1 ⊃ document 2 ⊃ chunk 5. -/
def dbC5 : DB := ⟨[(1, libA)], [(2, docA)], [(5, chunkA)], [(2, 1)], [(5, 2)]⟩

/-- C5 (code bug): what `delete_library` actually does.  (1) an absent
library returns `False` with the store unchanged; (2) an existing library
with no relationship entry mapping a document to it returns `True` having
removed only the library record — documents, chunks and both relationship
maps are untouched, so nothing is ever cascaded; (3) an existing library
with at least one mapped document hangs forever with the store unchanged:
the claimed post-state of a successful cascade is unreachable. -/
theorem deleteLibrary_deadlock :
    ∀ (db : DB) (l : ℕ),
      ((alookup db.libraries l).isNone →
        deleteLibraryL db l Locks.free = (LRes.ok false, db)) ∧
      ((alookup db.libraries l).isSome →
        db.documentLibraryMap.filter (fun p => p.2 == l) = [] →
        deleteLibraryL db l Locks.free =
          (LRes.ok true, { db with libraries := aerase db.libraries l })) ∧
      (∀ q qs, (alookup db.libraries l).isSome →
        db.documentLibraryMap.filter (fun p => p.2 == l) = q :: qs →
        deleteLibraryL db l Locks.free = (LRes.hang, db)) := by
  intro db l
  refine ⟨?_, ?_, ?_⟩
  · intro h
    simp [deleteLibraryL, locksFree_lib, Option.isNone_iff_eq_none.mp h]
  · intro hs hf
    obtain ⟨lb, hlb⟩ := Option.isSome_iff_exists.mp hs
    simp [deleteLibraryL, deleteDocumentsByLibraryL, deleteDocsLoopL,
      locksFree_lib, locksFree_doc, hlb, hf]
  · intro q qs hs hf
    obtain ⟨lb, hlb⟩ := Option.isSome_iff_exists.mp hs
    simp [deleteLibraryL, deleteDocumentsByLibraryL, deleteDocsLoopL,
      deleteDocumentL, locksFree_lib, locksFree_doc, hlb, hf]

/-- Witness for `deleteLibrary_deadlock` at the concrete in-sync store: the
delete of the populated library 1 hangs with the store unchanged. -/
theorem deleteLibrary_deadlock_witness :
    ((alookup dbC5.libraries 1).isSome = true ∧
      dbC5.documentLibraryMap.filter (fun p => p.2 == 1) = [(2, 1)]) ∧
    deleteLibraryL dbC5 1 Locks.free = (LRes.hang, dbC5) :=
  ⟨⟨rfl, rfl⟩,
    (deleteLibrary_deadlock dbC5 1).2.2 (2, 1) [] rfl rfl⟩

/-! ## Claim C4 — what `load_library_from_file` installs

The loader checks only that the required keys are present; it never compares a
document's `library_id` with the file's library, nor a chunk's `document_id`
with the loaded documents. -/

theorem loadDocStep_libraries (db : DB) (rd : RawDoc) :
    (loadDocStep db rd).libraries = db.libraries := by
  unfold loadDocStep
  split <;> rfl

theorem loadDocsFold_libraries (rds : List RawDoc) (db : DB) :
    (rds.foldl loadDocStep db).libraries = db.libraries := by
  induction rds generalizing db with
  | nil => rfl
  | cons rd rds ih => rw [List.foldl_cons, ih, loadDocStep_libraries]

theorem loadDocsFold_chunks (rds : List RawDoc) (db : DB) :
    (rds.foldl loadDocStep db).chunks = db.chunks ∧
    (rds.foldl loadDocStep db).chunkDocumentMap = db.chunkDocumentMap := by
  induction rds generalizing db with
  | nil => exact ⟨rfl, rfl⟩
  | cons rd rds ih =>
    rw [List.foldl_cons]
    obtain ⟨h1, h2⟩ := ih (loadDocStep db rd)
    rw [h1, h2]
    unfold loadDocStep
    split <;> exact ⟨rfl, rfl⟩

theorem loadDocsFold_docs_mono (rds : List RawDoc) (db : DB) (j : ℕ)
    (h : (alookup db.documents j).isSome) :
    (alookup (rds.foldl loadDocStep db).documents j).isSome := by
  induction rds generalizing db with
  | nil => exact h
  | cons rd rds ih =>
    rw [List.foldl_cons]
    refine ih _ ?_
    unfold loadDocStep
    split
    · simp only [alookup_astore]
      split <;> simp [h]
    · exact h

theorem loadDocsFold_installed (rds : List RawDoc) (db : DB) :
    ∀ rd ∈ rds, ∀ di li, rd.id = some di → rd.libraryId = some li →
      (alookup (rds.foldl loadDocStep db).documents di).isSome := by
  induction rds generalizing db with
  | nil => simp
  | cons rd0 rds ih =>
    intro rd hrd di li hid hli
    rw [List.foldl_cons]
    rcases List.mem_cons.mp hrd with rfl | hrd'
    · refine loadDocsFold_docs_mono rds _ di ?_
      unfold loadDocStep
      rw [hid, hli]
      simp [alookup_astore]
    · exact ih _ rd hrd' di li hid hli

theorem loadDocsFold_skip (rds : List RawDoc) (db : DB) (j : ℕ)
    (h : ∀ rd ∈ rds, rd.id = some j → rd.libraryId = none) :
    alookup (rds.foldl loadDocStep db).documents j = alookup db.documents j ∧
    alookup (rds.foldl loadDocStep db).documentLibraryMap j =
      alookup db.documentLibraryMap j := by
  induction rds generalizing db with
  | nil => exact ⟨rfl, rfl⟩
  | cons rd rds ih =>
    rw [List.foldl_cons]
    obtain ⟨h1, h2⟩ := ih (loadDocStep db rd)
      (fun rd' hrd' => h rd' (List.mem_cons_of_mem _ hrd'))
    rw [h1, h2]
    unfold loadDocStep
    cases hid : rd.id with
    | none => exact ⟨rfl, rfl⟩
    | some di =>
      cases hli : rd.libraryId with
      | none => exact ⟨rfl, rfl⟩
      | some li =>
        have hdij : ¬j = di := by
          intro hc
          subst hc
          have := h rd (List.mem_cons_self _ _) hid
          rw [hli] at this
          cases this
        simp only [alookup_astore]
        rw [if_neg hdij, if_neg hdij]
        exact ⟨rfl, rfl⟩

theorem loadChunkStep_other (db : DB) (rc : RawChunk) :
    (loadChunkStep db rc).libraries = db.libraries ∧
    (loadChunkStep db rc).documents = db.documents ∧
    (loadChunkStep db rc).documentLibraryMap = db.documentLibraryMap := by
  unfold loadChunkStep
  split <;> exact ⟨rfl, rfl, rfl⟩

theorem loadChunksFold_other (rcs : List RawChunk) (db : DB) :
    (rcs.foldl loadChunkStep db).libraries = db.libraries ∧
    (rcs.foldl loadChunkStep db).documents = db.documents ∧
    (rcs.foldl loadChunkStep db).documentLibraryMap = db.documentLibraryMap := by
  induction rcs generalizing db with
  | nil => exact ⟨rfl, rfl, rfl⟩
  | cons rc rcs ih =>
    rw [List.foldl_cons]
    obtain ⟨h1, h2, h3⟩ := ih (loadChunkStep db rc)
    obtain ⟨g1, g2, g3⟩ := loadChunkStep_other db rc
    exact ⟨h1.trans g1, h2.trans g2, h3.trans g3⟩

theorem loadChunksFold_emb_mono (rcs : List RawChunk) (db : DB) (j : ℕ)
    (h : ∃ c, alookup db.chunks j = some c ∧ c.embedding = none) :
    ∃ c, alookup (rcs.foldl loadChunkStep db).chunks j = some c ∧
      c.embedding = none := by
  induction rcs generalizing db with
  | nil => exact h
  | cons rc rcs ih =>
    rw [List.foldl_cons]
    refine ih _ ?_
    unfold loadChunkStep
    cases hci : rc.id with
    | none => exact h
    | some ci =>
      cases hdi : rc.documentId with
      | none => exact h
      | some di =>
        dsimp only
        simp only [alookup_astore]
        by_cases hji : j = ci
        · exact ⟨_, by rw [if_pos hji], rfl⟩
        · rw [if_neg hji]
          exact h

theorem loadChunksFold_installed (rcs : List RawChunk) (db : DB) :
    ∀ rc ∈ rcs, ∀ ci di, rc.id = some ci → rc.documentId = some di →
      ∃ c, alookup (rcs.foldl loadChunkStep db).chunks ci = some c ∧
        c.embedding = none := by
  induction rcs generalizing db with
  | nil => simp
  | cons rc0 rcs ih =>
    intro rc hrc ci di hid hdi
    rw [List.foldl_cons]
    rcases List.mem_cons.mp hrc with rfl | hrc'
    · refine loadChunksFold_emb_mono rcs _ ci ?_
      unfold loadChunkStep
      rw [hid, hdi]
      dsimp only
      refine ⟨⟨ci, some di, rc.text, none, rc.metadata⟩, ?_, rfl⟩
      simp [alookup_astore]
    · exact ih _ rc hrc' ci di hid hdi

theorem loadChunksFold_skip (rcs : List RawChunk) (db : DB) (j : ℕ)
    (h : ∀ rc ∈ rcs, rc.id = some j → rc.documentId = none) :
    alookup (rcs.foldl loadChunkStep db).chunks j = alookup db.chunks j ∧
    alookup (rcs.foldl loadChunkStep db).chunkDocumentMap j =
      alookup db.chunkDocumentMap j := by
  induction rcs generalizing db with
  | nil => exact ⟨rfl, rfl⟩
  | cons rc rcs ih =>
    rw [List.foldl_cons]
    obtain ⟨h1, h2⟩ := ih (loadChunkStep db rc)
      (fun rc' hrc' => h rc' (List.mem_cons_of_mem _ hrc'))
    rw [h1, h2]
    unfold loadChunkStep
    cases hid : rc.id with
    | none => exact ⟨rfl, rfl⟩
    | some ci =>
      cases hdi : rc.documentId with
      | none => exact ⟨rfl, rfl⟩
      | some di =>
        have hcij : ¬j = ci := by
          intro hc
          subst hc
          have := h rc (List.mem_cons_self _ _) hid
          rw [hdi] at this
          cases this
        simp only [alookup_astore]
        rw [if_neg hcij, if_neg hcij]
        exact ⟨rfl, rfl⟩

/-- C4 counterexample: a snapshot file whose document's `library_id` (99)
differs from the file's library (1) and whose chunk's `document_id` (42)
matches no loaded document is loaded in full: both records are installed
anyway, contradicting the claimed cross-checks. -/
theorem loadFile_no_crosscheck_counterexample :
    (loadFile DB.empty
      ⟨some ⟨some 1, "lib", [], [], IndexStatus.init⟩,
        [⟨some 2, some 99, [], []⟩], [⟨some 5, some 42, "t", none, []⟩]⟩).1 =
      true ∧
    alookup (loadFile DB.empty
      ⟨some ⟨some 1, "lib", [], [], IndexStatus.init⟩,
        [⟨some 2, some 99, [], []⟩], [⟨some 5, some 42, "t", none, []⟩]⟩).2.documents
      2 = some ⟨2, 99, [], []⟩ ∧
    (99 ≠ 1) ∧
    alookup (loadFile DB.empty
      ⟨some ⟨some 1, "lib", [], [], IndexStatus.init⟩,
        [⟨some 2, some 99, [], []⟩], [⟨some 5, some 42, "t", none, []⟩]⟩).2.chunks
      5 = some ⟨5, some 42, "t", none, []⟩ ∧
    alookup (loadFile DB.empty
      ⟨some ⟨some 1, "lib", [], [], IndexStatus.init⟩,
        [⟨some 2, some 99, [], []⟩], [⟨some 5, some 42, "t", none, []⟩]⟩).2.documents
      42 = none :=
  ⟨rfl, rfl, by decide, rfl, rfl⟩

/-- C4 amended: the loader installs the library first and unconditionally
(provided the `library` record and its `id` are present, otherwise it returns
`False` and leaves the store unchanged); a document record is installed iff it
has both `id` and `library_id` keys — its `library_id` is *not* compared with
the file's library; a chunk record is installed (with its embedding stripped)
iff it has both `id` and `document_id` keys — its `document_id` is *not*
required to match any loaded document; records missing a required key are
skipped and leave the store untouched at their ids. -/
theorem loadFile_cases :
    ∀ (db : DB) (f : SnapshotFile),
      (f.library = none → loadFile db f = (false, db)) ∧
      (∀ rawl, f.library = some rawl → rawl.id = none →
        loadFile db f = (false, db)) ∧
      (∀ rawl lid, f.library = some rawl → rawl.id = some lid →
        (loadFile db f).1 = true ∧
        alookup (loadFile db f).2.libraries lid =
          some ⟨lid, rawl.name, rawl.documents, rawl.metadata, rawl.indexStatus⟩ ∧
        (∀ rd ∈ f.documents, ∀ di li, rd.id = some di → rd.libraryId = some li →
          (alookup (loadFile db f).2.documents di).isSome) ∧
        (∀ j, (∀ rd ∈ f.documents, rd.id = some j → rd.libraryId = none) →
          alookup (loadFile db f).2.documents j = alookup db.documents j) ∧
        (∀ rc ∈ f.chunks, ∀ ci di, rc.id = some ci → rc.documentId = some di →
          ∃ c, alookup (loadFile db f).2.chunks ci = some c ∧
            c.embedding = none) ∧
        (∀ j, (∀ rc ∈ f.chunks, rc.id = some j → rc.documentId = none) →
          alookup (loadFile db f).2.chunks j = alookup db.chunks j)) := by
  intro db f
  refine ⟨?_, ?_, ?_⟩
  · intro h
    unfold loadFile
    rw [h]
  · intro rawl hl hid
    unfold loadFile
    rw [hl]
    dsimp only
    rw [hid]
  · intro rawl lid hl hid
    unfold loadFile
    rw [hl]
    dsimp only
    rw [hid]
    dsimp only
    refine ⟨rfl, ?_, ?_, ?_, ?_, ?_⟩
    · rw [(loadChunksFold_other _ _).1, loadDocsFold_libraries]
      simp [alookup_astore]
    · intro rd hrd di li hdi hli
      rw [(loadChunksFold_other _ _).2.1]
      exact loadDocsFold_installed _ _ rd hrd di li hdi hli
    · intro j hj
      rw [(loadChunksFold_other _ _).2.1]
      exact (loadDocsFold_skip _ _ j hj).1
    · intro rc hrc ci di hci hdi
      exact loadChunksFold_installed
        f.chunks _ rc hrc ci di hci hdi
    · intro j hj
      rw [(loadChunksFold_skip _ _ j hj).1, (loadDocsFold_chunks _ _).1]

/-- Snapshot file with a mismatched document parent and a dangling chunk parent. -/
def fileC4 : SnapshotFile :=
  ⟨some ⟨some 1, "lib", [], [], IndexStatus.init⟩,
    [⟨some 2, some 99, [], []⟩], [⟨some 5, some 42, "t", none, []⟩]⟩

/-- Witness for `loadFile_cases` at a concrete file. -/
theorem loadFile_cases_witness :
    (fileC4.library = some ⟨some 1, "lib", [], [], IndexStatus.init⟩ ∧
      (⟨some 1, "lib", [], [], IndexStatus.init⟩ : RawLib).id = some 1) ∧
    ((loadFile DB.empty fileC4).1 = true ∧
      alookup (loadFile DB.empty fileC4).2.libraries 1 =
        some ⟨1, "lib", [], [], IndexStatus.init⟩ ∧
      (∀ rd ∈ fileC4.documents, ∀ di li, rd.id = some di →
        rd.libraryId = some li →
        (alookup (loadFile DB.empty fileC4).2.documents di).isSome) ∧
      (∀ j, (∀ rd ∈ fileC4.documents, rd.id = some j → rd.libraryId = none) →
        alookup (loadFile DB.empty fileC4).2.documents j =
          alookup DB.empty.documents j) ∧
      (∀ rc ∈ fileC4.chunks, ∀ ci di, rc.id = some ci →
        rc.documentId = some di →
        ∃ c, alookup (loadFile DB.empty fileC4).2.chunks ci = some c ∧
          c.embedding = none) ∧
      (∀ j, (∀ rc ∈ fileC4.chunks, rc.id = some j → rc.documentId = none) →
        alookup (loadFile DB.empty fileC4).2.chunks j =
          alookup DB.empty.chunks j)) :=
  ⟨⟨rfl, rfl⟩,
    (loadFile_cases DB.empty fileC4).2.2
      ⟨some 1, "lib", [], [], IndexStatus.init⟩ 1 rfl rfl⟩

/-! ## Claim C3 — snapshot round-trip -/

/-- Key membership in a filtered dict comprehension is a lookup hit whose
value passes the filter, for maps with distinct keys. -/
theorem mem_filter_keys_iff {α : Type} {m : List (ℕ × α)}
    (hnd : (m.map Prod.fst).Nodup) (f : ℕ × α → Bool) (j : ℕ) :
    j ∈ (m.filter f).map Prod.fst ↔
      ∃ v, alookup m j = some v ∧ f (j, v) = true := by
  induction m with
  | nil => simp [alookup]
  | cons p t ih =>
    obtain ⟨a, b⟩ := p
    simp only [List.map_cons, List.nodup_cons] at hnd
    rw [List.filter_cons]
    by_cases haj : a = j
    · subst haj
      by_cases hf : f (a, b) = true
      · rw [if_pos hf]
        simp only [List.map_cons, List.mem_cons]
        constructor
        · intro _
          exact ⟨b, by rw [alookup_cons]; simp, hf⟩
        · intro _
          simp
      · rw [if_neg hf]
        constructor
        · intro h
          have hmem : a ∈ t.map Prod.fst :=
            (((List.filter_sublist t).map Prod.fst).subset) h
          exact absurd hmem hnd.1
        · rintro ⟨v, hv, hfv⟩
          rw [alookup_cons] at hv
          rw [if_pos rfl] at hv
          have hbv : b = v := by
            injection hv
          rw [← hbv] at hfv
          exact absurd hfv hf
    · rw [alookup_cons, if_neg haj]
      by_cases hf : f (a, b) = true
      · rw [if_pos hf]
        simp only [List.map_cons, List.mem_cons]
        rw [ih hnd.2]
        constructor
        · intro h
          rcases h with h | h
          · exact absurd h.symm haj
          · exact h
        · exact Or.inr
      · rw [if_neg hf]
        exact ih hnd.2

/-- The document-id list collected by `save_library`. -/
def savedDocIds (db : DB) (l : ℕ) : List ℕ :=
  (db.documentLibraryMap.filter
    (fun p => p.2 == l && (alookup db.documents p.1).isSome)).map Prod.fst

/-- The serialized documents written by `save_library`. -/
def savedDocs (db : DB) (l : ℕ) : List RawDoc :=
  (savedDocIds db l).filterMap (fun i => (alookup db.documents i).map serDoc)

/-- The chunk-id list collected for one document by `save_library`. -/
def chunkIdsOf (db : DB) (di : ℕ) : List ℕ :=
  (db.chunkDocumentMap.filter
    (fun p => p.2 == di && (alookup db.chunks p.1).isSome)).map Prod.fst

/-- The serialized chunks written by `save_library`, per document. -/
def savedChunks (db : DB) (dids : List ℕ) : List RawChunk :=
  dids.foldr
    (fun di acc =>
      ((chunkIdsOf db di).filterMap (fun ci => (alookup db.chunks ci).map serChunk))
        ++ acc) []

/-- `save_library` on a present library produces exactly the library copy, the
collected documents and the collected chunks. -/
theorem saveLibrary_eq (db : DB) (l : ℕ) (lib : LibraryRec)
    (hlib : alookup db.libraries l = some lib) :
    saveLibrary db l =
      some ⟨some (serLib lib), savedDocs db l, savedChunks db (savedDocIds db l)⟩ := by
  unfold saveLibrary
  rw [hlib]
  rfl

/-- `load_library_from_file` on a file whose library record carries an id:
install the library, then fold the documents, then the chunks. -/
theorem loadFile_some (db : DB) (rawl : RawLib) (lid : ℕ) (rds : List RawDoc)
    (rcs : List RawChunk) (h : rawl.id = some lid) :
    loadFile db ⟨some rawl, rds, rcs⟩ =
      (true, rcs.foldl loadChunkStep (rds.foldl loadDocStep
        { db with libraries := (astore db.libraries lid
            ⟨lid, rawl.name, rawl.documents, rawl.metadata, rawl.indexStatus⟩) })) := by
  unfold loadFile
  dsimp only
  rw [h]

/-- Replaying serialized documents drawn from the store installs exactly those
documents with their relationship entries (last write wins is irrelevant: the
ids are distinct). -/
theorem savedDocsFold_lookup (db : DB) (ids : List ℕ) (dbI : DB)
    (hnd : ids.Nodup)
    (hids : ∀ i ∈ ids, ∃ d, alookup db.documents i = some d ∧ d.id = i)
    (j : ℕ) :
    alookup ((ids.filterMap
        (fun i => (alookup db.documents i).map serDoc)).foldl loadDocStep dbI).documents j
      = (if j ∈ ids then alookup db.documents j else alookup dbI.documents j) ∧
    alookup ((ids.filterMap
        (fun i => (alookup db.documents i).map serDoc)).foldl loadDocStep dbI).documentLibraryMap j
      = (if j ∈ ids then (alookup db.documents j).map DocumentRec.libraryId
         else alookup dbI.documentLibraryMap j) := by
  induction ids generalizing dbI with
  | nil => simp
  | cons i ids ih =>
    obtain ⟨d, hd, hdi⟩ := hids i (by simp)
    rw [List.filterMap_cons, hd]
    simp only [Option.map_some']
    rw [List.foldl_cons]
    have hstep : loadDocStep dbI (serDoc d) =
        { dbI with
          documents := astore dbI.documents d.id d
          documentLibraryMap := astore dbI.documentLibraryMap d.id d.libraryId } := by
      unfold serDoc loadDocStep
      rfl
    rw [hstep]
    have hnd' : ids.Nodup := hnd.of_cons
    have hrec := ih
      { dbI with
        documents := astore dbI.documents d.id d
        documentLibraryMap := astore dbI.documentLibraryMap d.id d.libraryId }
      hnd' (fun i' hi' => hids i' (List.mem_cons_of_mem _ hi'))
    rcases hrec with ⟨h1, h2⟩
    by_cases hj : j ∈ ids
    · rw [h1, h2, if_pos hj, if_pos hj,
        if_pos (List.mem_cons_of_mem _ hj), if_pos (List.mem_cons_of_mem _ hj)]
      exact ⟨rfl, rfl⟩
    · rw [h1, h2, if_neg hj, if_neg hj]
      dsimp only
      rw [alookup_astore, alookup_astore]
      by_cases hji : j = i
      · have hjd : j = d.id := by omega
        rw [if_pos hjd, if_pos hjd,
          if_pos (by rw [hji]; exact List.mem_cons_self _ _),
          if_pos (by rw [hji]; exact List.mem_cons_self _ _)]
        rw [hji, hd]
        exact ⟨rfl, rfl⟩
      · have hjd : ¬j = d.id := by omega
        have hjm : ¬j ∈ i :: ids := by
          intro hc
          rcases List.mem_cons.mp hc with h | h
          · exact hji h
          · exact hj h
        rw [if_neg hjd, if_neg hjd, if_neg hjm, if_neg hjm]
        exact ⟨rfl, rfl⟩

/-- Membership in the saved document-id list is exactly a relationship hit on
the library together with a stored document. -/
theorem mem_savedDocIds_iff (db : DB) (l : ℕ)
    (hnd : (db.documentLibraryMap.map Prod.fst).Nodup) (j : ℕ) :
    j ∈ savedDocIds db l ↔
      alookup db.documentLibraryMap j = some l ∧
        (alookup db.documents j).isSome = true := by
  unfold savedDocIds
  rw [mem_filter_keys_iff hnd]
  constructor
  · rintro ⟨v, hv, hb⟩
    simp only [Bool.and_eq_true, beq_iff_eq] at hb
    exact ⟨by rw [hv, hb.1], hb.2⟩
  · rintro ⟨hv, hs⟩
    exact ⟨l, hv, by simp [hs]⟩

/-- Membership in a document's saved chunk-id list is exactly a relationship
hit on that document together with a stored chunk. -/
theorem mem_chunkIdsOf_iff (db : DB) (di : ℕ)
    (hnd : (db.chunkDocumentMap.map Prod.fst).Nodup) (j : ℕ) :
    j ∈ chunkIdsOf db di ↔
      alookup db.chunkDocumentMap j = some di ∧
        (alookup db.chunks j).isSome = true := by
  unfold chunkIdsOf
  rw [mem_filter_keys_iff hnd]
  constructor
  · rintro ⟨v, hv, hb⟩
    simp only [Bool.and_eq_true, beq_iff_eq] at hb
    exact ⟨by rw [hv, hb.1], hb.2⟩
  · rintro ⟨hv, hs⟩
    exact ⟨di, hv, by simp [hs]⟩

/-- Replaying the serialized chunks of one document installs exactly those
chunks, embeddings stripped, with their relationship entries. -/
theorem savedChunksOneDoc_lookup (db : DB) (di : ℕ) (cids : List ℕ) (dbI : DB)
    (hnd : cids.Nodup)
    (hcids : ∀ ci ∈ cids, ∃ c, alookup db.chunks ci = some c ∧ c.id = ci ∧
      c.documentId = some di)
    (j : ℕ) :
    alookup ((cids.filterMap
        (fun ci => (alookup db.chunks ci).map serChunk)).foldl loadChunkStep dbI).chunks j
      = (if j ∈ cids then
           (alookup db.chunks j).map (fun c => { c with embedding := none })
         else alookup dbI.chunks j) ∧
    alookup ((cids.filterMap
        (fun ci => (alookup db.chunks ci).map serChunk)).foldl loadChunkStep dbI).chunkDocumentMap j
      = (if j ∈ cids then some di else alookup dbI.chunkDocumentMap j) := by
  induction cids generalizing dbI with
  | nil => simp
  | cons ci cids ih =>
    obtain ⟨c, hc, hci, hcd⟩ := hcids ci (by simp)
    rw [List.filterMap_cons, hc]
    simp only [Option.map_some']
    rw [List.foldl_cons]
    have hstep : loadChunkStep dbI (serChunk c) =
        { dbI with
          chunks := astore dbI.chunks c.id { c with embedding := none }
          chunkDocumentMap := astore dbI.chunkDocumentMap c.id di } := by
      unfold serChunk loadChunkStep
      dsimp only
      rw [hcd]
    rw [hstep]
    have hnd' : cids.Nodup := hnd.of_cons
    have hrec := ih
      { dbI with
        chunks := astore dbI.chunks c.id { c with embedding := none }
        chunkDocumentMap := astore dbI.chunkDocumentMap c.id di }
      hnd' (fun ci' hci' => hcids ci' (List.mem_cons_of_mem _ hci'))
    rcases hrec with ⟨h1, h2⟩
    by_cases hj : j ∈ cids
    · rw [h1, h2, if_pos hj, if_pos hj,
        if_pos (List.mem_cons_of_mem _ hj), if_pos (List.mem_cons_of_mem _ hj)]
      exact ⟨rfl, rfl⟩
    · rw [h1, h2, if_neg hj, if_neg hj]
      dsimp only
      rw [alookup_astore, alookup_astore]
      by_cases hji : j = ci
      · have hjc : j = c.id := by omega
        rw [if_pos hjc, if_pos hjc,
          if_pos (by rw [hji]; exact List.mem_cons_self _ _),
          if_pos (by rw [hji]; exact List.mem_cons_self _ _)]
        rw [hji, hc]
        exact ⟨rfl, rfl⟩
      · have hjc : ¬j = c.id := by omega
        have hjm : ¬j ∈ ci :: cids := by
          intro hcm
          rcases List.mem_cons.mp hcm with h | h
          · exact hji h
          · exact hj h
        rw [if_neg hjc, if_neg hjc, if_neg hjm, if_neg hjm]
        exact ⟨rfl, rfl⟩

/-- Replaying all saved chunks of a list of distinct document ids: a chunk is
installed (embedding stripped, relationship entry restored) iff its stored
relationship entry points into the list; other keys keep their prior value. -/
theorem savedChunksFold_lookup (db : DB) (dids : List ℕ) (dbI : DB)
    (hnd : dids.Nodup)
    (hcdm : (db.chunkDocumentMap.map Prod.fst).Nodup)
    (hck : ∀ p ∈ db.chunks, p.2.id = p.1)
    (hcsA : ∀ p ∈ db.chunks, alookup db.chunkDocumentMap p.1 = p.2.documentId)
    (hcsB : ∀ p ∈ db.chunkDocumentMap, (alookup db.chunks p.1).isSome = true) :
    (∀ j di, alookup db.chunkDocumentMap j = some di → di ∈ dids →
      alookup ((savedChunks db dids).foldl loadChunkStep dbI).chunks j
        = (alookup db.chunks j).map (fun c => { c with embedding := none }) ∧
      alookup ((savedChunks db dids).foldl loadChunkStep dbI).chunkDocumentMap j
        = some di) ∧
    (∀ j, (∀ di, alookup db.chunkDocumentMap j = some di → di ∉ dids) →
      alookup ((savedChunks db dids).foldl loadChunkStep dbI).chunks j
        = alookup dbI.chunks j ∧
      alookup ((savedChunks db dids).foldl loadChunkStep dbI).chunkDocumentMap j
        = alookup dbI.chunkDocumentMap j) := by
  induction dids generalizing dbI with
  | nil =>
    constructor
    · intro j di _ hmem
      cases hmem
    · intro j _
      exact ⟨rfl, rfl⟩
  | cons di0 dids ih =>
    have hnd' : dids.Nodup := hnd.of_cons
    have hhead : di0 ∉ dids := by
      rw [List.nodup_cons] at hnd
      exact hnd.1
    -- peel off the head document's chunk block
    have hsplit : savedChunks db (di0 :: dids) =
        ((chunkIdsOf db di0).filterMap
          (fun ci => (alookup db.chunks ci).map serChunk)) ++ savedChunks db dids := by
      unfold savedChunks
      rw [List.foldr_cons]
    rw [hsplit]
    rw [List.foldl_append]
    -- the inner fold for the head document
    have hcnd : (chunkIdsOf db di0).Nodup := by
      unfold chunkIdsOf
      exact hcdm.sublist ((List.filter_sublist _).map Prod.fst)
    have hcids : ∀ ci ∈ chunkIdsOf db di0,
        ∃ c, alookup db.chunks ci = some c ∧ c.id = ci ∧
          c.documentId = some di0 := by
      intro ci hci
      obtain ⟨hrel, hs⟩ := (mem_chunkIdsOf_iff db di0 hcdm ci).mp hci
      obtain ⟨c, hc⟩ := Option.isSome_iff_exists.mp hs
      refine ⟨c, hc, hck (ci, c) (alookup_mem hc), ?_⟩
      have := hcsA (ci, c) (alookup_mem hc)
      dsimp only at this
      rw [← this, hrel]
    have hinner := savedChunksOneDoc_lookup db di0 (chunkIdsOf db di0) dbI hcnd hcids
    have hrec := ih
      (((chunkIdsOf db di0).filterMap
        (fun ci => (alookup db.chunks ci).map serChunk)).foldl loadChunkStep dbI)
      hnd'
    constructor
    · intro j di hj hmem
      rcases List.mem_cons.mp hmem with heq | hmem'
      · subst heq
        -- the head document: j installed by the inner fold, kept by the rest
        have hjin : j ∈ chunkIdsOf db di :=
          (mem_chunkIdsOf_iff db di hcdm j).mpr
            ⟨hj, hcsB (j, di) (alookup_mem hj)⟩
        have hB := hrec.2 j (fun di' hdi' => by
          rw [hj] at hdi'
          injection hdi' with h
          rw [← h]
          exact hhead)
        constructor
        · rw [hB.1, (hinner j).1, if_pos hjin]
        · rw [hB.2, (hinner j).2, if_pos hjin]
      · -- a later document: the head's chunk block does not touch j
        exact hrec.1 j di hj hmem'
    · intro j hcond
      have hjnin : j ∉ chunkIdsOf db di0 := by
        intro hc
        obtain ⟨hrel, _⟩ := (mem_chunkIdsOf_iff db di0 hcdm j).mp hc
        exact hcond di0 hrel (List.mem_cons_self _ _)
      have hB := hrec.2 j (fun di' hdi' hc =>
        hcond di' hdi' (List.mem_cons_of_mem _ hc))
      constructor
      · rw [hB.1, (hinner j).1, if_neg hjnin]
      · rw [hB.2, (hinner j).2, if_neg hjnin]

/-- C3 (amended): for every library whose snapshot save succeeds — on a store
whose relationship maps agree with the stored parent fields — loading the file
into an empty store reinstalls the library record verbatim (its
`index_status`, including the `indexed` flag, is restored exactly as saved,
NOT reset to false), every document of the library with its relationship
entry, and every chunk of those documents with its relationship entry, the
chunk's `embedding` set to `none`; nothing else is installed. -/
theorem snapshot_roundtrip (db : DB) (l : ℕ) (lib : LibraryRec) (f : SnapshotFile)
    (hdlm : (db.documentLibraryMap.map Prod.fst).Nodup)
    (hcdm : (db.chunkDocumentMap.map Prod.fst).Nodup)
    (hdk : ∀ p ∈ db.documents, p.2.id = p.1)
    (hck : ∀ p ∈ db.chunks, p.2.id = p.1)
    (hdsB : ∀ p ∈ db.documentLibraryMap,
      (alookup db.documents p.1).map DocumentRec.libraryId = some p.2)
    (hcsA : ∀ p ∈ db.chunks, alookup db.chunkDocumentMap p.1 = p.2.documentId)
    (hcsB : ∀ p ∈ db.chunkDocumentMap, (alookup db.chunks p.1).isSome = true)
    (hlib : alookup db.libraries l = some lib) (hlid : lib.id = l)
    (hsave : saveLibrary db l = some f) :
    (loadFile DB.empty f).1 = true ∧
    (∀ j, alookup (loadFile DB.empty f).2.libraries j
        = if j = l then some lib else none) ∧
    (∀ j, alookup (loadFile DB.empty f).2.documents j
        = if alookup db.documentLibraryMap j = some l
          then alookup db.documents j else none) ∧
    (∀ j, alookup (loadFile DB.empty f).2.documentLibraryMap j
        = if alookup db.documentLibraryMap j = some l then some l else none) ∧
    (∀ j di, alookup db.chunkDocumentMap j = some di →
      alookup (loadFile DB.empty f).2.chunks j
        = (if alookup db.documentLibraryMap di = some l
           then (alookup db.chunks j).map (fun c => { c with embedding := none })
           else none) ∧
      alookup (loadFile DB.empty f).2.chunkDocumentMap j
        = (if alookup db.documentLibraryMap di = some l then some di else none)) ∧
    (∀ j, alookup db.chunkDocumentMap j = none →
      alookup (loadFile DB.empty f).2.chunks j = none ∧
      alookup (loadFile DB.empty f).2.chunkDocumentMap j = none) := by
  subst hlid
  rw [saveLibrary_eq db lib.id lib hlib] at hsave
  injection hsave with hf
  subst hf
  have hload : loadFile DB.empty
      ⟨some (serLib lib), savedDocs db lib.id, savedChunks db (savedDocIds db lib.id)⟩
      = (true, (savedChunks db (savedDocIds db lib.id)).foldl loadChunkStep
          ((savedDocs db lib.id).foldl loadDocStep
            { DB.empty with libraries := (astore DB.empty.libraries lib.id lib) })) :=
    loadFile_some DB.empty (serLib lib) lib.id _ _ rfl
  have hidsnd : (savedDocIds db lib.id).Nodup := by
    unfold savedDocIds
    exact hdlm.sublist ((List.filter_sublist _).map Prod.fst)
  have hids : ∀ i ∈ savedDocIds db lib.id,
      ∃ d, alookup db.documents i = some d ∧ d.id = i := by
    intro i hi
    obtain ⟨hrel, hs⟩ := (mem_savedDocIds_iff db lib.id hdlm i).mp hi
    obtain ⟨d, hd⟩ := Option.isSome_iff_exists.mp hs
    exact ⟨d, hd, hdk (i, d) (alookup_mem hd)⟩
  have hdocs : ∀ j,
      alookup ((savedDocs db lib.id).foldl loadDocStep
          { DB.empty with
            libraries := (astore DB.empty.libraries lib.id lib) }).documents j
        = (if j ∈ savedDocIds db lib.id then alookup db.documents j else none) ∧
      alookup ((savedDocs db lib.id).foldl loadDocStep
          { DB.empty with
            libraries := (astore DB.empty.libraries lib.id lib) }).documentLibraryMap j
        = (if j ∈ savedDocIds db lib.id then
            (alookup db.documents j).map DocumentRec.libraryId else none) :=
    fun j => savedDocsFold_lookup db (savedDocIds db lib.id)
      { DB.empty with libraries := (astore DB.empty.libraries lib.id lib) }
      hidsnd hids j
  have hchunks := savedChunksFold_lookup db (savedDocIds db lib.id)
    ((savedDocs db lib.id).foldl loadDocStep
      { DB.empty with libraries := (astore DB.empty.libraries lib.id lib) })
    hidsnd hcdm hck hcsA hcsB
  have hd2 := loadDocsFold_chunks (savedDocs db lib.id)
    { DB.empty with libraries := (astore DB.empty.libraries lib.id lib) }
  have hsome : ∀ i, alookup db.documentLibraryMap i = some lib.id →
      (alookup db.documents i).isSome = true := by
    intro i hrel
    have hmap := hdsB (i, lib.id) (alookup_mem hrel)
    dsimp only at hmap
    cases halo : alookup db.documents i
    · rw [halo] at hmap
      simp at hmap
    · rfl
  refine ⟨by rw [hload], ?_, ?_, ?_, ?_, ?_⟩
  · intro j
    rw [hload]
    dsimp only
    rw [(loadChunksFold_other _ _).1, loadDocsFold_libraries]
    dsimp only
    rw [alookup_astore]
    by_cases hj : j = lib.id
    · rw [if_pos hj, if_pos hj]
    · rw [if_neg hj, if_neg hj]
      rfl
  · intro j
    rw [hload]
    dsimp only
    rw [(loadChunksFold_other _ _).2.1, (hdocs j).1]
    by_cases hrel : alookup db.documentLibraryMap j = some lib.id
    · have hjin : j ∈ savedDocIds db lib.id :=
        (mem_savedDocIds_iff db lib.id hdlm j).mpr ⟨hrel, hsome j hrel⟩
      rw [if_pos hjin, if_pos hrel]
    · have hjnin : j ∉ savedDocIds db lib.id := by
        intro hc
        exact hrel ((mem_savedDocIds_iff db lib.id hdlm j).mp hc).1
      rw [if_neg hjnin, if_neg hrel]
  · intro j
    rw [hload]
    dsimp only
    rw [(loadChunksFold_other _ _).2.2, (hdocs j).2]
    by_cases hrel : alookup db.documentLibraryMap j = some lib.id
    · have hjin : j ∈ savedDocIds db lib.id :=
        (mem_savedDocIds_iff db lib.id hdlm j).mpr ⟨hrel, hsome j hrel⟩
      rw [if_pos hjin, if_pos hrel]
      exact hdsB (j, lib.id) (alookup_mem hrel)
    · have hjnin : j ∉ savedDocIds db lib.id := by
        intro hc
        exact hrel ((mem_savedDocIds_iff db lib.id hdlm j).mp hc).1
      rw [if_neg hjnin, if_neg hrel]
  · intro j di hj
    rw [hload]
    dsimp only
    by_cases hrel : alookup db.documentLibraryMap di = some lib.id
    · have hdin : di ∈ savedDocIds db lib.id :=
        (mem_savedDocIds_iff db lib.id hdlm di).mpr ⟨hrel, hsome di hrel⟩
      have hA := hchunks.1 j di hj hdin
      rw [hA.1, hA.2, if_pos hrel, if_pos hrel]
      exact ⟨rfl, rfl⟩
    · have hdnin : di ∉ savedDocIds db lib.id := by
        intro hc
        exact hrel ((mem_savedDocIds_iff db lib.id hdlm di).mp hc).1
      have hB := hchunks.2 j (fun di' hdi' => by
        rw [hj] at hdi'
        injection hdi' with h
        rw [← h]
        exact hdnin)
      rw [hB.1, hB.2, hd2.1, hd2.2, if_neg hrel, if_neg hrel]
      exact ⟨rfl, rfl⟩
  · intro j hj
    rw [hload]
    dsimp only
    have hB := hchunks.2 j (fun di' hdi' => by
      rw [hj] at hdi'
      simp at hdi')
    rw [hB.1, hB.2, hd2.1, hd2.2]
    exact ⟨rfl, rfl⟩

/-- A stored chunk that still carries an embedding. -/
def chunkEmbC3 : ChunkRec := ⟨5, some 2, "t", some [3], []⟩

/-- A store holding one indexed library with one document and one chunk. -/
def dbC3 : DB := ⟨[(1, libIndexedA)], [(2, docA)], [(5, chunkEmbC3)], [(2, 1)], [(5, 2)]⟩

/-- The snapshot file `save_library` writes for `dbC3`'s library. -/
def fileC3 : SnapshotFile := (saveLibrary dbC3 1).getD ⟨none, [], []⟩

/-- C3 counterexample: a library saved while `index_status.indexed = true` is
restored with `indexed = true` — `load_library_from_file` installs the saved
library dict verbatim and never resets the flag — while the chunk's embedding
is stripped as claimed. -/
theorem snapshot_indexed_counterexample :
    saveLibrary dbC3 1 = some fileC3 ∧
    (loadFile DB.empty fileC3).1 = true ∧
    (alookup (loadFile DB.empty fileC3).2.libraries 1).map
      (fun lb => lb.indexStatus.indexed) = some true ∧
    (alookup (loadFile DB.empty fileC3).2.chunks 5).map
      (fun c => c.embedding) = some none :=
  ⟨rfl, rfl, rfl, rfl⟩

/-- Witness for `snapshot_roundtrip` at the concrete store `dbC3`. -/
theorem snapshot_roundtrip_witness :
    ((dbC3.documentLibraryMap.map Prod.fst).Nodup ∧
     (dbC3.chunkDocumentMap.map Prod.fst).Nodup ∧
     (∀ p ∈ dbC3.documents, p.2.id = p.1) ∧
     (∀ p ∈ dbC3.chunks, p.2.id = p.1) ∧
     (∀ p ∈ dbC3.documentLibraryMap,
       (alookup dbC3.documents p.1).map DocumentRec.libraryId = some p.2) ∧
     (∀ p ∈ dbC3.chunks, alookup dbC3.chunkDocumentMap p.1 = p.2.documentId) ∧
     (∀ p ∈ dbC3.chunkDocumentMap, (alookup dbC3.chunks p.1).isSome = true) ∧
     alookup dbC3.libraries 1 = some libIndexedA ∧
     libIndexedA.id = 1 ∧
     saveLibrary dbC3 1 = some fileC3) ∧
    ((loadFile DB.empty fileC3).1 = true ∧
     (∀ j, alookup (loadFile DB.empty fileC3).2.libraries j
         = if j = 1 then some libIndexedA else none) ∧
     (∀ j, alookup (loadFile DB.empty fileC3).2.documents j
         = if alookup dbC3.documentLibraryMap j = some 1
           then alookup dbC3.documents j else none) ∧
     (∀ j, alookup (loadFile DB.empty fileC3).2.documentLibraryMap j
         = if alookup dbC3.documentLibraryMap j = some 1 then some 1 else none) ∧
     (∀ j di, alookup dbC3.chunkDocumentMap j = some di →
       alookup (loadFile DB.empty fileC3).2.chunks j
         = (if alookup dbC3.documentLibraryMap di = some 1
            then (alookup dbC3.chunks j).map (fun c => { c with embedding := none })
            else none) ∧
       alookup (loadFile DB.empty fileC3).2.chunkDocumentMap j
         = (if alookup dbC3.documentLibraryMap di = some 1 then some di else none)) ∧
     (∀ j, alookup dbC3.chunkDocumentMap j = none →
       alookup (loadFile DB.empty fileC3).2.chunks j = none ∧
       alookup (loadFile DB.empty fileC3).2.chunkDocumentMap j = none)) :=
  ⟨⟨by decide, by decide, by decide, by decide, by decide, by decide, by decide,
    rfl, rfl, rfl⟩,
   snapshot_roundtrip dbC3 1 libIndexedA fileC3 (by decide) (by decide)
     (by decide) (by decide) (by decide) (by decide) (by decide) rfl rfl rfl⟩

end StackVDB
